import Mathlib

/-!
Verification of the `console_core` lighting-console runtime against its
natural-language specification.

The Rust sources (`src/console_core/src/*.rs`) are shallowly embedded:

* `BTreeMap<K, V>` becomes an association list `List (K × V)` kept in
  strictly ascending key order by `ainsert`; `alookup` is `BTreeMap::get`.
  Iteration over a `BTreeMap` becomes iteration over the list, so every
  theorem that depends on ascending iteration order carries an explicit
  sortedness hypothesis.
* `u8` / `u16` / `u32` values become `Nat`, with explicit `% 2 ^ w`
  wrapping at the places where the Rust code performs machine-integer
  casts or arithmetic that can overflow (`lerp_u8`'s `i32` arithmetic,
  the `u16` address arithmetic in `render_fixture_values`).
* `anyhow::Result<T>` becomes `Option T` (the error payloads are string
  messages that no claim depends on).
* `&mut self` methods become functions returning the updated value.
-/

/-! ## Association lists standing for `BTreeMap` -/

/-- `BTreeMap::get`: first binding of the key, if any. -/
def alookup {κ α : Type} [DecidableEq κ] : List (κ × α) → κ → Option α
  | [], _ => none
  | (k, v) :: rest, key => if key = k then some v else alookup rest key

/-- `BTreeMap::insert` for `Nat` keys: sorted insert, replacing an equal key. -/
def ainsert {α : Type} : List (Nat × α) → Nat → α → List (Nat × α)
  | [], k, v => [(k, v)]
  | (k', v') :: rest, k, v =>
    if k < k' then (k, v) :: (k', v') :: rest
    else if k = k' then (k, v) :: rest
    else (k', v') :: ainsert rest k v

/-- `BTreeSet::insert` for `Nat`: sorted insert without duplication. -/
def natSetInsert : List Nat → Nat → List Nat
  | [], k => [k]
  | k' :: rest, k =>
    if k < k' then k :: k' :: rest
    else if k = k' then k' :: rest
    else k' :: natSetInsert rest k

theorem alookup_ainsert_self {α : Type} (m : List (Nat × α)) (k : Nat) (v : α) :
    alookup (ainsert m k v) k = some v := by
  induction m with
  | nil => simp [ainsert, alookup]
  | cons p rest ih =>
    obtain ⟨k', v'⟩ := p
    by_cases h1 : k < k'
    · simp [ainsert, h1, alookup]
    · by_cases h2 : k = k'
      · simp [ainsert, h1, h2, alookup]
      · simp [ainsert, h1, h2, alookup, ih]

theorem alookup_ainsert_ne {α : Type} (m : List (Nat × α)) (k k' : Nat) (v : α)
    (h : k' ≠ k) : alookup (ainsert m k v) k' = alookup m k' := by
  induction m with
  | nil => simp [ainsert, alookup, h]
  | cons p rest ih =>
    obtain ⟨k0, v0⟩ := p
    by_cases h1 : k < k0
    · simp only [ainsert, if_pos h1, alookup, if_neg h]
    · by_cases h2 : k = k0
      · subst h2
        simp [ainsert, h1, alookup, h]
      · by_cases h3 : k' = k0
        · simp [ainsert, h1, h2, alookup, h3]
        · simp [ainsert, h1, h2, alookup, h3, ih]

theorem mem_ainsert {α : Type} (m : List (Nat × α)) (k : Nat) (v : α) (p : Nat × α)
    (h : p ∈ ainsert m k v) : p = (k, v) ∨ p ∈ m := by
  induction m with
  | nil => simpa [ainsert] using h
  | cons q rest ih =>
    obtain ⟨k0, v0⟩ := q
    by_cases h1 : k < k0
    · simp only [ainsert, if_pos h1, List.mem_cons] at h
      simp only [List.mem_cons]
      tauto
    · by_cases h2 : k = k0
      · simp only [ainsert, if_neg h1, if_pos h2, List.mem_cons] at h
        simp only [List.mem_cons]
        tauto
      · simp only [ainsert, if_neg h1, if_neg h2, List.mem_cons] at h
        simp only [List.mem_cons]
        rcases h with h | h
        · tauto
        · rcases ih h with h' | h' <;> tauto

theorem mem_natSetInsert (s : List Nat) (k x : Nat) :
    x ∈ natSetInsert s k ↔ x = k ∨ x ∈ s := by
  induction s with
  | nil => simp [natSetInsert]
  | cons k' rest ih =>
    by_cases h1 : k < k'
    · simp only [natSetInsert, if_pos h1, List.mem_cons]
    · by_cases h2 : k = k'
      · simp only [natSetInsert, if_neg h1, if_pos h2, List.mem_cons]
        subst h2
        tauto
      · simp only [natSetInsert, if_neg h1, if_neg h2, List.mem_cons, ih]
        tauto

/-! ## `FixtureValues` and delta application (`cues.rs`) -/

structure FixtureValues where
  intensity : Option Nat
  r : Option Nat
  g : Option Nat
  b : Option Nat
deriving DecidableEq

/-- `FixtureValues::default()`: every field unset. -/
def FixtureValues.empty : FixtureValues := ⟨none, none, none, none⟩

/-- Tracking rule: only overwrite fields that are `Some` in `delta`. -/
def FixtureValues.apply_delta (self delta : FixtureValues) : FixtureValues where
  intensity := match delta.intensity with
    | some v => some v
    | none => self.intensity
  r := match delta.r with
    | some v => some v
    | none => self.r
  g := match delta.g with
    | some v => some v
    | none => self.g
  b := match delta.b with
    | some v => some v
    | none => self.b

def FixtureValues.is_all_none (v : FixtureValues) : Bool :=
  v.intensity.isNone && v.r.isNone && v.g.isNone && v.b.isNone

/-- Fixture-values map `BTreeMap<u32, FixtureValues>`. -/
abbrev FVMap := List (Nat × FixtureValues)

/-! ## Patch, cue and show data model (`lib.rs`, `cues.rs`) -/

inductive ChannelKind where
  | Intensity
  | Pan
  | Tilt
  | ColorR
  | ColorG
  | ColorB
  | Other
deriving DecidableEq

structure ChannelDef where
  name : String
  kind : ChannelKind
deriving DecidableEq

structure FixtureType where
  type_id : String
  manufacturer : String
  model : String
  channels : List ChannelDef
deriving DecidableEq

/-- `FixtureInstance`; the Rust field `universe` is named `univ` here
because `universe` is a Lean keyword. -/
structure FixtureInstance where
  fixture_id : Nat
  name : String
  fixture_type : String
  univ : Nat
  address : Nat
deriving DecidableEq

structure Patch where
  fixture_types : List (String × FixtureType)
  fixtures : List (Nat × FixtureInstance)
deriving DecidableEq

structure Cue where
  number : Nat
  label : String
  block : Bool
  fade_ms : Nat
  delay_ms : Nat
  changes : FVMap
deriving DecidableEq

structure CueList where
  cues : List (Nat × Cue)
deriving DecidableEq

structure Show where
  name : String
  patch : Patch
  cue_lists : List (String × CueList)
deriving DecidableEq

/-! ## `LiveState` (`engine.rs`) -/

/-- Sparse DMX output: universe -> (address -> value), both `BTreeMap`s. -/
structure LiveState where
  universes : List (Nat × List (Nat × Nat))
deriving DecidableEq

def LiveState.new : LiveState := ⟨[]⟩

/-- `self.universes.entry(universe).or_default().insert(address, value)`. -/
def LiveState.set (ls : LiveState) (u address value : Nat) : LiveState :=
  ⟨ainsert ls.universes u
    (ainsert ((alookup ls.universes u).getD []) address value)⟩

/-- Values in `top` overwrite values in `self`; `entry(u).or_default()`
also materialises universes whose address map is empty. -/
def LiveState.overlay (ls top : LiveState) : LiveState :=
  ⟨top.universes.foldl
    (fun acc p =>
      ainsert acc p.1
        (p.2.foldl (fun dst q => ainsert dst q.1 q.2)
          ((alookup acc p.1).getD [])))
    ls.universes⟩

def LiveState.get? (ls : LiveState) (u address : Nat) : Option Nat :=
  match alookup ls.universes u with
  | none => none
  | some m => alookup m address

/-! ## Playback engine (`playback.rs`) -/

inductive PlaybackMode where
  | Tracking
  | CueOnly
deriving DecidableEq

/-- `Transition`; `from` is a Lean keyword, so the endpoint maps are named
`fromMap` / `toMap`. Both are fully resolved by construction in the code. -/
structure Transition where
  fromMap : FVMap
  toMap : FVMap
  elapsed_ms : Nat
  fade_ms : Nat
  delay_ms : Nat
deriving DecidableEq

structure Playback where
  cuelist : String
  current : Option Nat
  mode : PlaybackMode
  transition : Option Transition
deriving DecidableEq

def Playback.new (cuelist : String) : Playback :=
  { cuelist := cuelist, current := none, mode := .Tracking, transition := none }

/-- Two's-complement interpretation of an integer as an `i32`
(Rust release-mode wrapping semantics). -/
def wrap32 (n : Int) : Int := (n + 2 ^ 31) % 2 ^ 32 - 2 ^ 31

/-- `lerp_u8(a, b, t, dur)`: `a + (b - a) * t / dur` in `i32` arithmetic
(`as i32` casts wrap, `/` truncates toward zero), clamped to `[0, 255]`. -/
def lerp_u8 (a b t dur : Nat) : Nat :=
  if dur = 0 then b
  else
    let ai : Int := a
    let bi : Int := b
    let delta := bi - ai
    let v := wrap32 (ai + Int.tdiv (wrap32 (delta * wrap32 t)) (wrap32 dur))
    (max 0 (min v 255)).toNat

/-- Default used by `interpolate_maps` for a fixture missing on one side. -/
def allZeroFV : FixtureValues := ⟨some 0, some 0, some 0, some 0⟩

/-- `interpolate_maps`: interpolate every fixture in `keys(from) ∪ keys(to)`
(a `BTreeSet`, hence sorted and deduplicated), missing side defaulting to 0. -/
def interpolate_maps (fromMap toMap : FVMap) (t dur : Nat) : FVMap :=
  let keys := (fromMap.map Prod.fst ++ toMap.map Prod.fst).foldl natSetInsert []
  keys.map fun fid =>
    let f := (alookup fromMap fid).getD allZeroFV
    let tt := (alookup toMap fid).getD allZeroFV
    (fid,
      { intensity := some (lerp_u8 (f.intensity.getD 0) (tt.intensity.getD 0) t dur)
        r := some (lerp_u8 (f.r.getD 0) (tt.r.getD 0) t dur)
        g := some (lerp_u8 (f.g.getD 0) (tt.g.getD 0) t dur)
        b := some (lerp_u8 (f.b.getD 0) (tt.b.getD 0) t dur) : FixtureValues })

/-- `Playback::resolve_map`: replace every unset field by `Some(0)`. -/
def resolve_map (m : FVMap) : FVMap :=
  m.map fun p =>
    (p.1,
      { intensity := some (p.2.intensity.getD 0)
        r := some (p.2.r.getD 0)
        g := some (p.2.g.getD 0)
        b := some (p.2.b.getD 0) : FixtureValues })

/-- One iteration of the `tracked_state_at` loop body for a single cue. -/
def trackStep (tracked : FVMap) (p : Nat × Cue) : FVMap :=
  let cue := p.2
  let afterBlock :=
    if cue.block then
      cue.changes.foldl (fun acc q => ainsert acc q.1 FixtureValues.empty) tracked
    else tracked
  cue.changes.foldl
    (fun acc q =>
      ainsert acc q.1 (((alookup acc q.1).getD FixtureValues.empty).apply_delta q.2))
    afterBlock

/-- `Playback::tracked_state_at`: walk cues in ascending order while
`num <= cue_num` (the `break` on a sorted `BTreeMap` is `takeWhile`). -/
def Playback.tracked_state_at (pb : Playback) (sh : Show) (cue_num : Nat) :
    Option FVMap :=
  match alookup sh.cue_lists pb.cuelist with
  | none => none
  | some list =>
    some ((list.cues.takeWhile (fun p => p.1 ≤ cue_num)).foldl trackStep [])

/-- `Playback::cue_only_state_at`: the cue's own changes, or empty. -/
def Playback.cue_only_state_at (pb : Playback) (sh : Show) (cue_num : Nat) :
    Option FVMap :=
  match alookup sh.cue_lists pb.cuelist with
  | none => none
  | some list => some (((alookup list.cues cue_num).map Cue.changes).getD [])

def Playback.state_map_at (pb : Playback) (sh : Show) (cue_num : Nat) :
    Option FVMap :=
  match pb.mode with
  | .Tracking => pb.tracked_state_at sh cue_num
  | .CueOnly => pb.cue_only_state_at sh cue_num

/-- `Playback::output_state_map`. -/
def Playback.output_state_map (pb : Playback) (sh : Show) : Option FVMap :=
  match pb.transition with
  | some tr =>
    if tr.elapsed_ms < tr.delay_ms then some tr.fromMap
    else if tr.fade_ms = 0 then some tr.toMap
    else
      some (interpolate_maps tr.fromMap tr.toMap
        (min (tr.elapsed_ms - tr.delay_ms) tr.fade_ms) tr.fade_ms)
  | none =>
    match pb.current with
    | none => some []
    | some cur => (pb.state_map_at sh cur).map resolve_map

/-- `Playback::activate`: capture the current visible output as `from`
before `current` changes, then store (or clear) the transition. -/
def Playback.activate (pb : Playback) (sh : Show) (target : Nat) :
    Option Playback :=
  match pb.output_state_map sh with
  | none => none
  | some fromM =>
    match alookup sh.cue_lists pb.cuelist with
    | none => none
    | some list =>
      let timing :=
        match alookup list.cues target with
        | some cue => (cue.fade_ms, cue.delay_ms)
        | none => (0, 0)
      match pb.state_map_at sh target with
      | none => none
      | some to_raw =>
        let toM := resolve_map to_raw
        if timing.1 = 0 ∧ timing.2 = 0 then
          some { pb with current := some target, transition := none }
        else
          some { pb with
            current := some target
            transition := some
              { fromMap := fromM, toMap := toM, elapsed_ms := 0
                fade_ms := timing.1, delay_ms := timing.2 } }

def Playback.goto (pb : Playback) (sh : Show) (cue : Nat) : Option Playback :=
  pb.activate sh cue

/-- `Playback::go`. -/
def Playback.go (pb : Playback) (sh : Show) : Option (Playback × Option Nat) :=
  match alookup sh.cue_lists pb.cuelist with
  | none => none
  | some list =>
    match list.cues.map Prod.fst with
    | [] => some ({ pb with current := none, transition := none }, none)
    | n0 :: rest =>
      let next :=
        match pb.current with
        | none => n0
        | some cur => ((n0 :: rest).find? (fun n => cur < n)).getD cur
      match pb.activate sh next with
      | none => none
      | some pb' => some (pb', pb'.current)

/-- `Playback::tick`: saturating `u32` addition, then clear the transition
once `elapsed >= delay + fade`. -/
def Playback.tick (pb : Playback) (dt_ms : Nat) : Playback :=
  match pb.transition with
  | none => pb
  | some tr =>
    let elapsed := min (tr.elapsed_ms + dt_ms) (2 ^ 32 - 1)
    let done_at := min (tr.delay_ms + tr.fade_ms) (2 ^ 32 - 1)
    if done_at ≤ elapsed then { pb with transition := none }
    else { pb with transition := some { tr with elapsed_ms := elapsed } }

/-- Modelled from the spec: `Playback::on_cue_deleted` is called from
`src/console_cli/src/main.rs` but its definition is not among the provided
sources. Spec, section 4.6: if `current == Some(n)`, clear current and
transition. -/
def Playback.on_cue_deleted (pb : Playback) (n : Nat) : Playback :=
  if pb.current = some n then { pb with current := none, transition := none }
  else pb

/-- `render_fixture_values` channel loop: `addr = f.address + i as u16`
(`u16` arithmetic wraps mod `2 ^ 16`), bail outside `[1, 512]`, write the
value selected by the channel kind. -/
def renderChannels (f : FixtureInstance) (vals : FixtureValues) :
    List ChannelDef → Nat → LiveState → Option LiveState
  | [], _, live => some live
  | ch :: rest, i, live =>
    let addr := (f.address + i) % 2 ^ 16
    if 1 ≤ addr ∧ addr ≤ 512 then
      let value_opt :=
        match ch.kind with
        | .Intensity => vals.intensity
        | .ColorR => vals.r
        | .ColorG => vals.g
        | .ColorB => vals.b
        | _ => none
      let live' :=
        match value_opt with
        | some v => live.set f.univ addr v
        | none => live
      renderChannels f vals rest (i + 1) live'
    else none

/-- `render_fixture_values`: look up the fixture and its type, then walk
the channels. -/
def render_fixture_values (sh : Show) (fixture_id : Nat)
    (vals : FixtureValues) (live : LiveState) : Option LiveState :=
  match alookup sh.patch.fixtures fixture_id with
  | none => none
  | some f =>
    match alookup sh.patch.fixture_types f.fixture_type with
    | none => none
    | some ft => renderChannels f vals ft.channels 0 live

/-- The `for (fid, vals) in state` loop of `Playback::render` and
`Runtime::render`, with `?`-propagation. -/
def renderAll (sh : Show) : FVMap → LiveState → Option LiveState
  | [], live => some live
  | (fid, vals) :: rest, live =>
    match render_fixture_values sh fid vals live with
    | none => none
    | some live' => renderAll sh rest live'

/-- `Playback::render`. -/
def Playback.render (pb : Playback) (sh : Show) : Option LiveState :=
  match pb.output_state_map sh with
  | none => none
  | some state => renderAll sh state LiveState.new

/-! ## Programmer (`engine.rs`) -/

structure Programmer where
  selected : List Nat
  intensity : Option Nat
  r : Option Nat
  g : Option Nat
  b : Option Nat
deriving DecidableEq

def Programmer.new : Programmer :=
  { selected := [], intensity := none, r := none, g := none, b := none }

def Programmer.select_one (p : Programmer) (id : Nat) : Programmer :=
  { p with selected := natSetInsert p.selected id }

/-- `select_range`: inclusive, order-agnostic (swap if `a > b`). -/
def Programmer.select_range (p : Programmer) (a b : Nat) : Programmer :=
  let se := if a ≤ b then (a, b) else (b, a)
  { p with
    selected :=
      (List.range' se.1 (se.2 + 1 - se.1)).foldl natSetInsert p.selected }

/-- `set_intensity_percent`: clamp to 100, scale `0..100 -> 0..255` by
`(pct as u16 * 255) / 100` (which always fits in a `u8`). -/
def Programmer.set_intensity_percent (p : Programmer) (pct : Nat) : Programmer :=
  let pct := min pct 100
  let value := pct * 255 / 100
  { p with intensity := some value }

def Programmer.set_rgb (p : Programmer) (r g b : Nat) : Programmer :=
  { p with r := some r, g := some g, b := some b }

def Programmer.clear_values (p : Programmer) : Programmer :=
  { p with intensity := none, r := none, g := none, b := none }

def Programmer.clear_all (p : Programmer) : Programmer :=
  { p with selected := [], intensity := none, r := none, g := none, b := none }

/-- Channel loop of `Programmer::render`: identical address logic to
`render_fixture_values`, values drawn from the programmer's own fields. -/
def progChannels (p : Programmer) (f : FixtureInstance) :
    List ChannelDef → Nat → LiveState → Option LiveState
  | [], _, live => some live
  | ch :: rest, i, live =>
    let addr := (f.address + i) % 2 ^ 16
    if 1 ≤ addr ∧ addr ≤ 512 then
      let value_opt :=
        match ch.kind with
        | .Intensity => p.intensity
        | .ColorR => p.r
        | .ColorG => p.g
        | .ColorB => p.b
        | _ => none
      let live' :=
        match value_opt with
        | some v => live.set f.univ addr v
        | none => live
      progChannels p f rest (i + 1) live'
    else none

/-- The `for fixture_id in &self.selected` loop of `Programmer::render`. -/
def progRenderLoop (p : Programmer) (sh : Show) :
    List Nat → LiveState → Option LiveState
  | [], live => some live
  | fid :: rest, live =>
    match alookup sh.patch.fixtures fid with
    | none => none
    | some f =>
      match alookup sh.patch.fixture_types f.fixture_type with
      | none => none
      | some ft =>
        match progChannels p f ft.channels 0 live with
        | none => none
        | some live' => progRenderLoop p sh rest live'

/-- `Programmer::render`. -/
def Programmer.render (p : Programmer) (sh : Show) : Option LiveState :=
  progRenderLoop p sh p.selected LiveState.new

/-! ## Runtime orchestrator (`runtime.rs`) -/

/-- LTP with B-wins: `b` if set, else `a`. -/
def ltp (a b : Option Nat) : Option Nat :=
  match b with
  | some _ => b
  | none => a

/-- HTP: unset only when both unset, else max treating unset as 0. -/
def htp (a b : Option Nat) : Option Nat :=
  if a = none ∧ b = none then none
  else some (max (a.getD 0) (b.getD 0))

/-- `merge_fixture`: intensity HTP, colors LTP (B wins); a missing side
is `FixtureValues::default()`. -/
def merge_fixture (a b : Option FixtureValues) : FixtureValues :=
  let av := a.getD FixtureValues.empty
  let bv := b.getD FixtureValues.empty
  { intensity := htp av.intensity bv.intensity
    r := ltp av.r bv.r
    g := ltp av.g bv.g
    b := ltp av.b bv.b }

/-- `merge_maps`: for each fid in `a.keys().chain(b.keys())`, skipping fids
already merged, insert `merge_fixture(a.get(fid), b.get(fid))`. -/
def merge_maps (a b : FVMap) : FVMap :=
  (a.map Prod.fst ++ b.map Prod.fst).foldl
    (fun out fid =>
      if (alookup out fid).isSome then out
      else ainsert out fid (merge_fixture (alookup a fid) (alookup b fid)))
    []

structure Runtime where
  sh : Show
  playback_a : Playback
  playback_b : Playback
  programmer : Programmer

/-- `Runtime::render`: merge A and B at the fixture-values level, render
the merged map, then overlay the programmer. -/
def Runtime.render (rt : Runtime) : Option LiveState :=
  match rt.playback_a.output_state_map rt.sh with
  | none => none
  | some a =>
    match rt.playback_b.output_state_map rt.sh with
    | none => none
    | some b =>
      let merged := merge_maps a b
      match renderAll rt.sh merged LiveState.new with
      | none => none
      | some live =>
        match rt.programmer.render rt.sh with
        | none => none
        | some prog => some (live.overlay prog)

def Runtime.tick (rt : Runtime) (dt_ms : Nat) : Runtime :=
  { rt with
    playback_a := rt.playback_a.tick dt_ms
    playback_b := rt.playback_b.tick dt_ms }

/-! ## Programmer command mini-language (`progcmd.rs`) -/

inductive ProgWord where
  | Num (n : Nat)
  | Thru
  | At
  | Full
  | Out
  | Percent (p : Nat)
deriving DecidableEq

inductive ApplyStatus where
  | Applied
  | Incomplete
  | NotProgrammer
deriving DecidableEq

/-- `split_whitespace`: split on whitespace, dropping empty fragments. -/
def lexAux : List Char → List Char → List String
  | [], acc => if acc.isEmpty then [] else [String.mk acc.reverse]
  | c :: cs, acc =>
    if c.isWhitespace then
      if acc.isEmpty then lexAux cs [] else String.mk acc.reverse :: lexAux cs []
    else lexAux cs (c :: acc)

def lex (input : String) : List String := lexAux input.data []

/-- `str::to_lowercase` (on the ASCII tokens of this grammar). -/
def lowerStr (s : String) : String := String.mk (s.data.map Char.toLower)

/-- The ten ASCII digits with their numeric values. -/
def digitChars : List (Char × Nat) :=
  [('0', 0), ('1', 1), ('2', 2), ('3', 3), ('4', 4),
   ('5', 5), ('6', 6), ('7', 7), ('8', 8), ('9', 9)]

/-- `char::to_digit(10)`: the numeric value of a decimal digit, if any. -/
def digitVal (c : Char) : Option Nat := alookup digitChars c

def digitsToNat : List Char → Nat → Option Nat
  | [], acc => some acc
  | c :: cs, acc =>
    match digitVal c with
    | some d => digitsToNat cs (acc * 10 + d)
    | none => none

/-- `str::parse::<uN>()`: optional leading `+`, at least one digit,
value within the integer type's range. -/
def parseUInt (bound : Nat) (s : String) : Option Nat :=
  let cs :=
    match s.data with
    | '+' :: rest => rest
    | cs => cs
  match cs with
  | [] => none
  | _ =>
    match digitsToNat cs 0 with
    | some n => if n < bound then some n else none
    | none => none

def parseU32 (s : String) : Option Nat := parseUInt (2 ^ 32) s

def parseU8 (s : String) : Option Nat := parseUInt (2 ^ 8) s

/-- One token of `parse_words`: lowercase, try the keywords, then `u32`,
then `u8` (clamped to 100); anything else is not programmer syntax. -/
def parseWord (t : String) : Option ProgWord :=
  let low := lowerStr t
  if low = "thru" then some .Thru
  else if low = "@" then some .At
  else if low = "full" then some .Full
  else if low = "out" then some .Out
  else
    match parseU32 low with
    | some n => some (.Num n)
    | none =>
      match parseU8 low with
      | some p => some (.Percent (min p 100))
      | none => none

def parseWordsLoop : List String → Option (List ProgWord)
  | [] => some []
  | t :: rest =>
    match parseWord t with
    | none => none
    | some w =>
      match parseWordsLoop rest with
      | none => none
      | some ws => some (w :: ws)

/-- `parse_words`: empty input or a first token that is not a `u32`
numeral is `NotProgrammer`; so is any unrecognized later token. -/
def parse_words (tokens : List String) : Except ApplyStatus (List ProgWord) :=
  match tokens with
  | [] => .error .NotProgrammer
  | t0 :: _ =>
    if (parseU32 t0).isNone then .error .NotProgrammer
    else
      match parseWordsLoop tokens with
      | none => .error .NotProgrammer
      | some ws => .ok ws

/-- `p.selected.clear()` followed by `select_one` / `select_range`. -/
def applySelection (p : Programmer) (sel_a sel_b : Nat) : Programmer :=
  let p := { p with selected := [] }
  if sel_a = sel_b then p.select_one sel_a else p.select_range sel_a sel_b

/-- The trailing `@ level` phase of `try_apply_programmer_line`, applied to
the words after the selection; the selection has already mutated `p`. -/
def applyAt (p : Programmer) (rest : List ProgWord) : ApplyStatus × Programmer :=
  match rest with
  | [] => (.Applied, p)
  | .At :: rest2 =>
    match rest2 with
    | .Full :: _ => (.Applied, p.set_intensity_percent 100)
    | .Out :: _ => (.Applied, p.set_intensity_percent 0)
    | .Num n :: _ =>
      if n ≤ 100 then (.Applied, p.set_intensity_percent n)
      else (.Incomplete, p)
    | _ => (.Incomplete, p)
  | _ :: _ => (.Applied, p)

/-- The word-level body of `try_apply_programmer_line`: parse `<a>` and an
optional `thru <b>`; a dangling `thru` returns `Incomplete` before the
selection is applied. -/
def try_apply_words (words : List ProgWord) (p : Programmer) :
    ApplyStatus × Programmer :=
  match words with
  | .Num a :: rest =>
    match rest with
    | .Thru :: rest2 =>
      match rest2 with
      | .Num b :: rest3 => applyAt (applySelection p a b) rest3
      | _ => (.Incomplete, p)
    | _ => applyAt (applySelection p a a) rest
  | _ => (.NotProgrammer, p)

/-- `try_apply_programmer_line`: lex, parse words, apply. The Rust function
mutates `p` through `&mut`; here the updated programmer is returned. -/
def try_apply_programmer_line (line : String) (p : Programmer) :
    ApplyStatus × Programmer :=
  match parse_words (lex line) with
  | .error status => (status, p)
  | .ok words => try_apply_words words p

/-! ## General lemmas about the map embedding -/

theorem alookup_mem {κ α : Type} [DecidableEq κ] (m : List (κ × α)) (k : κ) (v : α)
    (h : alookup m k = some v) : (k, v) ∈ m := by
  induction m with
  | nil => simp [alookup] at h
  | cons p rest ih =>
    obtain ⟨k0, v0⟩ := p
    by_cases hk : k = k0
    · subst hk
      have he : alookup ((k, v0) :: rest) k = some v0 := by simp [alookup]
      rw [he] at h
      injection h with h
      subst h
      exact List.mem_cons_self _ _
    · simp only [alookup, if_neg hk] at h
      exact List.mem_cons_of_mem _ (ih h)

theorem alookup_isSome_iff_mem {κ α : Type} [DecidableEq κ] (m : List (κ × α)) (k : κ) :
    (alookup m k).isSome = true ↔ k ∈ m.map Prod.fst := by
  induction m with
  | nil => simp [alookup]
  | cons p rest ih =>
    obtain ⟨k0, v0⟩ := p
    by_cases hk : k = k0
    · subst hk
      simp [alookup]
    · simp [alookup, if_neg hk, hk, ih]

theorem alookup_eq_none_of_not_mem {κ α : Type} [DecidableEq κ]
    (m : List (κ × α)) (k : κ) (h : k ∉ m.map Prod.fst) : alookup m k = none := by
  cases ho : alookup m k with
  | none => rfl
  | some v =>
    exact absurd ((alookup_isSome_iff_mem m k).mp (by simp [ho])) h

theorem mem_foldl_natSetInsert (l : List Nat) (s : List Nat) (x : Nat) :
    x ∈ l.foldl natSetInsert s ↔ x ∈ s ∨ x ∈ l := by
  induction l generalizing s with
  | nil => simp
  | cons k rest ih =>
    simp only [List.foldl_cons, ih, mem_natSetInsert, List.mem_cons]
    tauto

theorem alookup_map_over_keys {α : Type} (keys : List Nat) (g : Nat → α) (fid : Nat) :
    alookup (keys.map fun k => (k, g k)) fid =
      if fid ∈ keys then some (g fid) else none := by
  induction keys with
  | nil => simp [alookup]
  | cons k rest ih =>
    by_cases hk : fid = k
    · subst hk
      simp [alookup]
    · simp [alookup, hk, ih]

/-! ## Playback helper lemmas -/

theorem state_map_at_isSome (pb : Playback) (sh : Show) (cl : CueList) (n : Nat)
    (hcl : alookup sh.cue_lists pb.cuelist = some cl) :
    (pb.state_map_at sh n).isSome = true := by
  unfold Playback.state_map_at Playback.tracked_state_at Playback.cue_only_state_at
  cases pb.mode <;> simp [hcl]

/-- `output_state_map` during a transition, as an explicit equation. -/
theorem output_state_map_transition (pb : Playback) (sh : Show) (tr : Transition)
    (htr : pb.transition = some tr) :
    pb.output_state_map sh =
      some (if tr.elapsed_ms < tr.delay_ms then tr.fromMap
        else if tr.fade_ms = 0 then tr.toMap
        else interpolate_maps tr.fromMap tr.toMap
          (min (tr.elapsed_ms - tr.delay_ms) tr.fade_ms) tr.fade_ms) := by
  unfold Playback.output_state_map
  rw [htr]
  by_cases h1 : tr.elapsed_ms < tr.delay_ms
  · simp [h1]
  · by_cases h2 : tr.fade_ms = 0
    · simp [h1, h2]
    · simp [h1, h2]

theorem output_state_map_isSome (pb : Playback) (sh : Show) (cl : CueList)
    (hcl : alookup sh.cue_lists pb.cuelist = some cl) :
    (pb.output_state_map sh).isSome = true := by
  cases htr : pb.transition with
  | some tr => rw [output_state_map_transition pb sh tr htr]; rfl
  | none =>
    unfold Playback.output_state_map
    rw [htr]
    cases hc : pb.current with
    | none => simp
    | some cur =>
      have hs := state_map_at_isSome pb sh cl cur hcl
      cases h : pb.state_map_at sh cur with
      | none => rw [h] at hs; simp at hs
      | some m => simp [h]

/-- Structure of any successful `activate`: `from` is the visible output
computed before `current` changed; `current` becomes the target; the stored
transition (if any) starts at `elapsed = 0` with that `from`. -/
theorem activate_cases (pb : Playback) (sh : Show) (target : Nat) (pb' : Playback)
    (h : pb.activate sh target = some pb') :
    ∃ fromM, pb.output_state_map sh = some fromM ∧
      pb'.cuelist = pb.cuelist ∧ pb'.mode = pb.mode ∧
      pb'.current = some target ∧
      (pb'.transition = none ∨
        ∃ fd dl toM, pb'.transition = some ⟨fromM, toM, 0, fd, dl⟩) := by
  unfold Playback.activate at h
  cases ho : pb.output_state_map sh with
  | none => rw [ho] at h; simp at h
  | some fromM =>
    rw [ho] at h
    cases hcl : alookup sh.cue_lists pb.cuelist with
    | none => rw [hcl] at h; simp at h
    | some list =>
      rw [hcl] at h
      cases hsm : pb.state_map_at sh target with
      | none => rw [hsm] at h; simp at h
      | some toRaw =>
        rw [hsm] at h
        refine ⟨fromM, rfl, ?_⟩
        simp only [] at h
        split at h <;>
          (simp only [Option.some.injEq] at h; subst h)
        · exact ⟨rfl, rfl, rfl, Or.inl rfl⟩
        · exact ⟨rfl, rfl, rfl, Or.inr ⟨_, _, _, rfl⟩⟩

theorem activate_isSome (pb : Playback) (sh : Show) (cl : CueList) (target : Nat)
    (hcl : alookup sh.cue_lists pb.cuelist = some cl) :
    (pb.activate sh target).isSome = true := by
  obtain ⟨fromM, hfm⟩ : ∃ m, pb.output_state_map sh = some m := by
    have := output_state_map_isSome pb sh cl hcl
    cases h : pb.output_state_map sh with
    | none => rw [h] at this; simp at this
    | some m => exact ⟨m, rfl⟩
  obtain ⟨toRaw, hsm⟩ : ∃ m, pb.state_map_at sh target = some m := by
    have := state_map_at_isSome pb sh cl target hcl
    cases h : pb.state_map_at sh target with
    | none => rw [h] at this; simp at this
    | some m => exact ⟨m, rfl⟩
  unfold Playback.activate
  rw [hfm, hcl, hsm]
  simp only []
  split <;> rfl

/-! ## C6: deleting the current cue clears cursor and transition -/

/-- C6: for every playback and cue number `n`, `on_cue_deleted(n)` clears
both the cursor (`current` becomes `None`) and any active transition when
the playback's `current` equals `Some(n)`, and leaves the playback entirely
unchanged otherwise. (`Playback::on_cue_deleted` is modelled from the spec;
only its CLI call sites appear in the provided sources.) -/
theorem on_cue_deleted_spec (pb : Playback) (n : Nat) :
    (pb.current = some n →
      pb.on_cue_deleted n = { pb with current := none, transition := none }) ∧
    (pb.current ≠ some n → pb.on_cue_deleted n = pb) := by
  constructor
  · intro h
    simp [Playback.on_cue_deleted, h]
  · intro h
    simp [Playback.on_cue_deleted, h]

def pbW6 : Playback :=
  { cuelist := "main", current := some 5, mode := .Tracking,
    transition := some ⟨[], [], 0, 100, 0⟩ }

/-- Witness for C6 at a concrete playback sitting on cue 5 mid-transition. -/
theorem on_cue_deleted_spec_witness :
    pbW6.on_cue_deleted 5 = { pbW6 with current := none, transition := none } ∧
    pbW6.on_cue_deleted 4 = pbW6 :=
  ⟨(on_cue_deleted_spec pbW6 5).1 (by decide),
   (on_cue_deleted_spec pbW6 4).2 (by decide)⟩

/-! ## C4: chained activate captures the interpolated look -/

/-- C4: calling `activate` (the body of `go` and `goto`) on a playback that
is mid-transition succeeds and captures, as the `from` map of the newly
stored transition, exactly the `output_state_map` visible at that instant
(computed from the playback state before `current` changes), with `elapsed`
reset to 0. -/
theorem activate_captures_from (pb : Playback) (sh : Show) (tr : Transition)
    (cl : CueList) (target : Nat)
    (htr : pb.transition = some tr)
    (hcl : alookup sh.cue_lists pb.cuelist = some cl) :
    ∃ pb' fromM, pb.output_state_map sh = some fromM ∧
      pb.activate sh target = some pb' ∧
      pb'.current = some target ∧
      ∀ tr', pb'.transition = some tr' →
        tr'.fromMap = fromM ∧ tr'.elapsed_ms = 0 := by
  obtain ⟨pb', hact⟩ : ∃ pb', pb.activate sh target = some pb' := by
    have := activate_isSome pb sh cl target hcl
    cases h : pb.activate sh target with
    | none => rw [h] at this; simp at this
    | some x => exact ⟨x, rfl⟩
  obtain ⟨fromM, hfm, _, _, hcur, hdis⟩ := activate_cases pb sh target pb' hact
  refine ⟨pb', fromM, hfm, hact, hcur, ?_⟩
  intro tr' h
  rcases hdis with hnone | ⟨fd, dl, toM, hsome⟩
  · rw [hnone] at h
    exact Option.noConfusion h
  · rw [hsome] at h
    injection h with h
    subst h
    exact ⟨rfl, rfl⟩

def trW4 : Transition :=
  ⟨[(1, ⟨some 0, some 0, some 0, some 0⟩)],
   [(1, ⟨some 255, some 0, some 0, some 0⟩)], 200, 1000, 0⟩

def pbW4 : Playback :=
  { cuelist := "main", current := some 1, mode := .Tracking,
    transition := some trW4 }

def cueW4 : Cue := ⟨2, "next", false, 500, 0, [(1, ⟨some 10, none, none, none⟩)]⟩

def shW4 : Show :=
  { name := "W4", patch := ⟨[], []⟩, cue_lists := [("main", ⟨[(2, cueW4)]⟩)] }

/-- Witness for C4 at a concrete mid-fade playback activating cue 2. -/
theorem activate_captures_from_witness :
    ∃ pb' fromM, pbW4.output_state_map shW4 = some fromM ∧
      pbW4.activate shW4 2 = some pb' ∧
      pb'.current = some 2 ∧
      ∀ tr', pb'.transition = some tr' →
        tr'.fromMap = fromM ∧ tr'.elapsed_ms = 0 :=
  activate_captures_from pbW4 shW4 trW4 ⟨[(2, cueW4)]⟩ 2 (by decide) (by decide)

/-! ## C2: HTP intensity, LTP colors -/

theorem merge_maps_fold_lookup (a b : FVMap) (l : List Nat) (out : FVMap) (fid : Nat) :
    alookup (l.foldl (fun out fid =>
        if (alookup out fid).isSome then out
        else ainsert out fid (merge_fixture (alookup a fid) (alookup b fid))) out) fid =
      match alookup out fid with
      | some v => some v
      | none =>
        if fid ∈ l then some (merge_fixture (alookup a fid) (alookup b fid))
        else none := by
  induction l generalizing out with
  | nil =>
    simp only [List.foldl_nil]
    cases alookup out fid <;> simp
  | cons k rest ih =>
    simp only [List.foldl_cons]
    rw [ih]
    cases hout : alookup out k with
    | some w =>
      simp only [hout, Option.isSome_some, if_true]
      by_cases hk : fid = k
      · subst hk
        simp [hout]
      · simp [List.mem_cons, hk]
    | none =>
      simp only [hout, Option.isSome_none, Bool.false_eq_true, if_false]
      by_cases hk : fid = k
      · subst hk
        simp [alookup_ainsert_self, hout, List.mem_cons]
      · rw [alookup_ainsert_ne out k fid _ hk]
        by_cases hm : fid ∈ rest <;> simp [List.mem_cons, hk, hm]

/-- The merged entry for a fixture, in the words of the spec: intensity is
HTP (unset only when both unset, else max treating unset as 0), colors are
LTP with B-wins (B's field when set, else A's). A side with no entry for
the fixture contributes `FixtureValues::default()`. -/
def specMerged (av bv : FixtureValues) : FixtureValues :=
  { intensity :=
      if av.intensity = none ∧ bv.intensity = none then none
      else some (max (av.intensity.getD 0) (bv.intensity.getD 0))
    r := if bv.r.isSome then bv.r else av.r
    g := if bv.g.isSome then bv.g else av.g
    b := if bv.b.isSome then bv.b else av.b }

/-- C2: for every pair of playback output maps merged by the runtime and
every fixture id in `keys(a) ∪ keys(b)`, the merged map has an entry for
that fixture and it is exactly `specMerged` of the two sides' entries
(missing side defaulting to all-unset). -/
theorem merge_spec (a b : FVMap) (fid : Nat)
    (hmem : fid ∈ a.map Prod.fst ∨ fid ∈ b.map Prod.fst) :
    alookup (merge_maps a b) fid =
      some (specMerged ((alookup a fid).getD FixtureValues.empty)
        ((alookup b fid).getD FixtureValues.empty)) := by
  have hmem' : fid ∈ a.map Prod.fst ++ b.map Prod.fst := by
    rw [List.mem_append]; exact hmem
  have hl : alookup (merge_maps a b) fid =
      some (merge_fixture (alookup a fid) (alookup b fid)) := by
    unfold merge_maps
    rw [merge_maps_fold_lookup a b _ [] fid]
    simp [alookup, hmem']
  rw [hl]
  unfold merge_fixture specMerged htp ltp
  have hr : ∀ x y : Option Nat,
      (match y with | some _ => y | none => x) = if y.isSome then y else x := by
    intro x y
    cases y <;> simp
  simp only [hr]

def mapW2a : FVMap :=
  [(1, ⟨some 10, some 1, none, none⟩), (2, ⟨some 7, none, none, some 3⟩)]
def mapW2b : FVMap := [(1, ⟨none, some 9, some 8, none⟩)]

/-- Witness for C2 at concrete maps: fixture 1 is present on both sides
(HTP takes A's larger intensity, LTP takes B's red and green but A's
values where B is unset), fixture 2 only on side A. -/
theorem merge_spec_witness :
    alookup (merge_maps mapW2a mapW2b) 1 =
      some (specMerged ((alookup mapW2a 1).getD FixtureValues.empty)
        ((alookup mapW2b 1).getD FixtureValues.empty)) ∧
    alookup (merge_maps mapW2a mapW2b) 2 =
      some (specMerged ((alookup mapW2a 2).getD FixtureValues.empty)
        ((alookup mapW2b 2).getD FixtureValues.empty)) ∧
    specMerged ((alookup mapW2a 1).getD FixtureValues.empty)
        ((alookup mapW2b 1).getD FixtureValues.empty)
      = ⟨some 10, some 9, some 8, none⟩ :=
  ⟨merge_spec mapW2a mapW2b 1 (by decide),
   merge_spec mapW2a mapW2b 2 (Or.inl (by decide)),
   by decide⟩

/-! ## C10: no transition without a current cue -/

/-- Playback states reachable from `Playback::new` through any sequence of
(successful) `goto`, `go` and `tick` calls, against arbitrary shows. -/
inductive ReachablePB : Playback → Prop where
  | base (cuelist : String) : ReachablePB (Playback.new cuelist)
  | goto_step (pb pb' : Playback) (sh : Show) (n : Nat) :
      ReachablePB pb → pb.goto sh n = some pb' → ReachablePB pb'
  | go_step (pb pb' : Playback) (sh : Show) (r : Option Nat) :
      ReachablePB pb → pb.go sh = some (pb', r) → ReachablePB pb'
  | tick_step (pb : Playback) (dt : Nat) :
      ReachablePB pb → ReachablePB (pb.tick dt)

/-- C10: every playback reachable from `Playback::new` via `goto`, `go` and
`tick` satisfies the state-machine invariant that an active transition
implies a current cue: `transition = Some` only if `current = Some`. -/
theorem reachable_no_orphan_transition (pb : Playback)
    (hr : ReachablePB pb) (ht : pb.transition.isSome = true) :
    pb.current.isSome = true := by
  induction hr with
  | base cl => simp [Playback.new] at ht
  | goto_step pb pb' sh n hr hstep ih =>
    obtain ⟨fromM, _, _, _, hcur, _⟩ := activate_cases pb sh n pb' hstep
    simp [hcur]
  | go_step pb pb' sh r hr hstep ih =>
    unfold Playback.go at hstep
    cases hcl : alookup sh.cue_lists pb.cuelist with
    | none => rw [hcl] at hstep; simp at hstep
    | some list =>
      rw [hcl] at hstep
      simp only [] at hstep
      cases hnums : list.cues.map Prod.fst with
      | nil =>
        rw [hnums] at hstep
        simp only [Option.some.injEq, Prod.mk.injEq] at hstep
        obtain ⟨h1, _⟩ := hstep
        rw [← h1] at ht
        simp at ht
      | cons n0 restNums =>
        rw [hnums] at hstep
        simp only [] at hstep
        cases hact : pb.activate sh
            (match pb.current with
             | none => n0
             | some cur => ((n0 :: restNums).find? (fun n => cur < n)).getD cur) with
        | none => rw [hact] at hstep; simp at hstep
        | some pb'' =>
          rw [hact] at hstep
          simp only [Option.some.injEq, Prod.mk.injEq] at hstep
          obtain ⟨h1, _⟩ := hstep
          subst h1
          obtain ⟨fromM, _, _, _, hcur, _⟩ := activate_cases pb sh _ pb'' hact
          simp [hcur]
  | tick_step pb dt hr ih =>
    unfold Playback.tick at ht ⊢
    cases htr : pb.transition with
    | none => rw [htr] at ht; exact ih ht
    | some tr =>
      rw [htr] at ht
      simp only [] at ht ⊢
      split at ht
      · simp at ht
      · have hc : pb.transition.isSome = true := by simp [htr]
        have hcur := ih hc
        split
        · simpa using hcur
        · simpa using hcur

def shW10 : Show :=
  { name := "W10", patch := ⟨[], []⟩,
    cue_lists := [("main", ⟨[(1, ⟨1, "one", false, 1000, 0, [(1, ⟨some 255, none, none, none⟩)]⟩)]⟩)] }

def pbW10 : Playback :=
  match (Playback.new "main").goto shW10 1 with
  | some pb => pb
  | none => Playback.new "main"

/-- Witness for C10: a concrete reachable playback that is mid-transition
(fade 1000 just started) indeed has a current cue. -/
theorem reachable_no_orphan_transition_witness : pbW10.current.isSome = true :=
  reachable_no_orphan_transition pbW10
    (ReachablePB.goto_step (Playback.new "main") pbW10 shW10 1
      (ReachablePB.base "main") (by decide))
    (by decide)

/-! ## Parser lemmas for C8 and C9 -/

theorem strMkData (s : String) : String.mk s.data = s := by
  rcases s with ⟨d⟩
  rfl

theorem digitVal_toLower (c : Char) (h : (digitVal c).isSome = true) :
    c.toLower = c := by
  unfold digitVal at h
  have hm := (alookup_isSome_iff_mem _ _).mp h
  simp [digitChars] at hm
  rcases hm with rfl | rfl | rfl | rfl | rfl | rfl | rfl | rfl | rfl | rfl <;> decide

theorem digitsToNat_digits (cs : List Char) (acc n : Nat)
    (h : digitsToNat cs acc = some n) :
    ∀ c ∈ cs, (digitVal c).isSome = true := by
  induction cs generalizing acc with
  | nil => intro c hc; simp at hc
  | cons c0 rest ih =>
    intro c hc
    unfold digitsToNat at h
    cases hd : digitVal c0 with
    | none => rw [hd] at h; simp at h
    | some d =>
      rw [hd] at h
      rcases List.mem_cons.mp hc with hceq | hcm
      · subst hceq; simp [hd]
      · exact ih _ h c hcm

theorem map_toLower_digits (l : List Char)
    (h : ∀ c ∈ l, (digitVal c).isSome = true) : l.map Char.toLower = l := by
  induction l with
  | nil => rfl
  | cons c rest ih =>
    simp only [List.map_cons]
    rw [digitVal_toLower c (h c (List.mem_cons_self c rest)),
      ih fun x hx => h x (List.mem_cons_of_mem _ hx)]

theorem parseU32_toLower (s : String) (a : Nat) (h : parseU32 s = some a) :
    lowerStr s = s := by
  rcases s with ⟨d⟩
  unfold parseU32 parseUInt at h
  simp only [] at h
  unfold lowerStr
  show String.mk (d.map Char.toLower) = String.mk d
  have hmap : d.map Char.toLower = d := by
    cases hd : d with
    | nil => rfl
    | cons c0 rest =>
      rw [hd] at h
      by_cases hplus : c0 = '+'
      · subst hplus
        have hred : (match ('+' :: rest : List Char) with
            | '+' :: r => r
            | cs => cs) = rest := rfl
        rw [hred] at h
        cases hrr : rest with
        | nil => rw [hrr] at h; simp at h
        | cons c1 rest1 =>
          rw [hrr] at h
          have hds : ∀ c ∈ c1 :: rest1, (digitVal c).isSome = true := by
            cases hdd : digitsToNat (c1 :: rest1) 0 with
            | none => rw [hdd] at h; simp at h
            | some m => exact digitsToNat_digits _ _ _ hdd
          have hm := map_toLower_digits _ hds
          simp only [List.map_cons] at hm ⊢
          exact congrArg (List.cons '+') hm
      · have hred : (match (c0 :: rest : List Char) with
            | '+' :: r => r
            | cs => cs) = c0 :: rest := by
          split
          · rename_i heq
            injection heq with h1 h2
            exact absurd h1 hplus
          · rfl
        rw [hred] at h
        have hds : ∀ c ∈ c0 :: rest, (digitVal c).isSome = true := by
          cases hdd : digitsToNat (c0 :: rest) 0 with
          | none => rw [hdd] at h; simp at h
          | some m => exact digitsToNat_digits _ _ _ hdd
        exact map_toLower_digits _ hds
  rw [hmap]

theorem parseWord_num (s : String) (a : Nat) (h : parseU32 s = some a) :
    parseWord s = some (ProgWord.Num a) := by
  have hlow := parseU32_toLower s a h
  have h1 : s ≠ "thru" := by
    intro he
    rw [he, show parseU32 "thru" = none from by decide] at h
    exact Option.noConfusion h
  have h2 : s ≠ "@" := by
    intro he
    rw [he, show parseU32 "@" = none from by decide] at h
    exact Option.noConfusion h
  have h3 : s ≠ "full" := by
    intro he
    rw [he, show parseU32 "full" = none from by decide] at h
    exact Option.noConfusion h
  have h4 : s ≠ "out" := by
    intro he
    rw [he, show parseU32 "out" = none from by decide] at h
    exact Option.noConfusion h
  simp only [parseWord]
  rw [hlow, if_neg h1, if_neg h2, if_neg h3, if_neg h4, h]

theorem parseWord_thru (t : String) (h : lowerStr t = "thru") :
    parseWord t = some ProgWord.Thru := by
  simp only [parseWord]
  rw [h, if_pos rfl]

theorem parseWord_at (t : String) (h : lowerStr t = "@") :
    parseWord t = some ProgWord.At := by
  simp only [parseWord]
  rw [h, if_neg (by decide), if_pos rfl]

/-! ## C8: dangling `thru` is Incomplete and mutates nothing -/

/-- C8: for every programmer state `p` and every input line of the shape
`<a> thru` (a nonnegative `u32` numeral token followed by a token that
lowercases to `thru`, and nothing else), `try_apply_programmer_line`
returns `Incomplete` and leaves `p` entirely unchanged — the early return
happens before the selection is applied. -/
theorem dangling_thru_incomplete (p : Programmer) (line : String)
    (s t : String) (a : Nat)
    (hlex : lex line = [s, t]) (hs : parseU32 s = some a)
    (ht : lowerStr t = "thru") :
    try_apply_programmer_line line p = (ApplyStatus.Incomplete, p) := by
  unfold try_apply_programmer_line
  rw [hlex]
  have hwords : parse_words [s, t] = .ok [ProgWord.Num a, ProgWord.Thru] := by
    unfold parse_words
    simp only []
    simp [hs, parseWordsLoop, parseWord_num s a hs, parseWord_thru t ht]
  rw [hwords]
  rfl

def progW8 : Programmer :=
  { selected := [7], intensity := some 3, r := some 1, g := none, b := some 2 }

/-- Witness for C8: `"101 thru"` on a nontrivial programmer state. -/
theorem dangling_thru_incomplete_witness :
    try_apply_programmer_line "101 thru" progW8 = (ApplyStatus.Incomplete, progW8) :=
  dangling_thru_incomplete progW8 "101 thru" "101" "thru" 101
    (by decide) (by decide) (by decide)

/-! ## C9: percent above 100 after `@` -/

/-- C9 counterexample: the claim says `"<a> @ <p>"` with `p > 100` returns
`Applied` with intensity 255 (clamped). On the code, `"1 @ 150"` instead
returns `Incomplete` (the guard `Num(n) if n <= 100` fails and falls into
the `Incomplete` arm), and the programmer's intensity is not touched. -/
theorem at_percent_above_100_counterexample :
    (try_apply_programmer_line "1 @ 150" Programmer.new).1 ≠ ApplyStatus.Applied ∧
    (try_apply_programmer_line "1 @ 150" Programmer.new).2.intensity ≠ some 255 ∧
    try_apply_programmer_line "1 @ 150" Programmer.new =
      (ApplyStatus.Incomplete, { Programmer.new with selected := [1] }) := by
  decide

/-- C9 (amended): for a line `<a> @ <p>` with `p > 100` the parser is not
clamping but rejecting: it returns `Incomplete`, with the selection already
applied (selection becomes `{a}`) and the intensity untouched.
`set_intensity_percent` itself does clamp: any percent above 100 stores
255, exactly `(min p 100) * 255 / 100` by integer math. -/
theorem at_percent_above_100 (p : Programmer) (line : String)
    (s1 s2 s3 : String) (a n : Nat)
    (hlex : lex line = [s1, s2, s3])
    (h1 : parseU32 s1 = some a) (h2 : lowerStr s2 = "@")
    (h3 : parseU32 s3 = some n) (hn : 100 < n) :
    try_apply_programmer_line line p =
      (ApplyStatus.Incomplete, { p with selected := [a] }) ∧
    (∀ (q : Programmer) (pct : Nat), 100 < pct →
      (q.set_intensity_percent pct).intensity = some 255) := by
  constructor
  · unfold try_apply_programmer_line
    rw [hlex]
    have hwords : parse_words [s1, s2, s3] =
        .ok [ProgWord.Num a, ProgWord.At, ProgWord.Num n] := by
      unfold parse_words
      simp only []
      simp [h1, parseWordsLoop, parseWord_num s1 a h1, parseWord_at s2 h2,
        parseWord_num s3 n h3]
    rw [hwords]
    show try_apply_words [ProgWord.Num a, ProgWord.At, ProgWord.Num n] p =
      (ApplyStatus.Incomplete, { p with selected := [a] })
    unfold try_apply_words
    simp only []
    unfold applyAt
    simp only []
    rw [if_neg (by omega : ¬ n ≤ 100)]
    unfold applySelection Programmer.select_one
    simp [natSetInsert]
  · intro q pct hp
    unfold Programmer.set_intensity_percent
    rw [Nat.min_eq_right (Nat.le_of_lt hp)]

def progW9 : Programmer :=
  { selected := [3], intensity := some 9, r := none, g := none, b := none }

/-- Witness for C9 (amended) at the concrete line `"1 @ 150"`. -/
theorem at_percent_above_100_witness :
    (try_apply_programmer_line "1 @ 150" progW9 =
      (ApplyStatus.Incomplete, { progW9 with selected := [1] }) ∧
    (∀ (q : Programmer) (pct : Nat), 100 < pct →
      (q.set_intensity_percent pct).intensity = some 255)) :=
  at_percent_above_100 progW9 "1 @ 150" "1" "@" "150" 1 150
    (by decide) (by decide) (by decide) (by decide) (by decide)

/-! ## C3: block cues erase tracked history -/

theorem takeWhile_sorted_split (l : List (Nat × Cue)) (n : Nat) (c : Cue)
    (hsorted : l.Pairwise (fun p q => p.1 < q.1))
    (hc : alookup l n = some c) :
    ∃ pre, l.takeWhile (fun p => p.1 ≤ n) = pre ++ [(n, c)] := by
  induction l with
  | nil => simp [alookup] at hc
  | cons p rest ih =>
    obtain ⟨k, v⟩ := p
    rw [List.pairwise_cons] at hsorted
    obtain ⟨hhead, htail⟩ := hsorted
    by_cases hk : n = k
    · subst hk
      have hv : v = c := by simpa [alookup] using hc
      subst hv
      have hrest : rest.takeWhile (fun p => p.1 ≤ n) = [] := by
        cases hr : rest with
        | nil => rfl
        | cons q rest2 =>
          have hq : n < q.1 := hhead q (by rw [hr]; exact List.mem_cons_self _ _)
          simp [List.takeWhile_cons, Nat.not_le.mpr hq]
      refine ⟨[], ?_⟩
      simp only [List.takeWhile_cons]
      rw [if_pos (by simp), hrest]
      rfl
    · have hlk : alookup rest n = some c := by simpa [alookup, hk] using hc
      have hkn : k < n := by
        rcases Nat.lt_trichotomy k n with h | h | h
        · exact h
        · exact absurd h.symm hk
        · exfalso
          have hnm : n ∉ rest.map Prod.fst := by
            intro hmem
            obtain ⟨q, hq, hq1⟩ := List.mem_map.mp hmem
            have := hhead q hq
            omega
          rw [alookup_eq_none_of_not_mem _ _ hnm] at hlk
          exact Option.noConfusion hlk
      obtain ⟨pre, hpre⟩ := ih htail hlk
      refine ⟨(k, v) :: pre, ?_⟩
      simp only [List.takeWhile_cons]
      rw [if_pos (by simp [Nat.le_of_lt hkn]), hpre]
      rfl

theorem block_fold_lookup (l : List (Nat × FixtureValues)) (acc : FVMap) (f : Nat) :
    alookup (l.foldl (fun acc q => ainsert acc q.1 FixtureValues.empty) acc) f =
      if f ∈ l.map Prod.fst then some FixtureValues.empty else alookup acc f := by
  induction l generalizing acc with
  | nil => simp
  | cons q rest ih =>
    simp only [List.foldl_cons]
    rw [ih]
    by_cases hf : f ∈ rest.map Prod.fst
    · simp [hf, List.map_cons, List.mem_cons]
    · by_cases hq : f = q.1
      · simp [hf, hq, alookup_ainsert_self, List.map_cons, List.mem_cons]
      · simp [hf, hq, alookup_ainsert_ne _ _ _ _ hq, List.map_cons, List.mem_cons]

theorem apply_fold_lookup (l : List (Nat × FixtureValues)) (acc : FVMap) (f : Nat)
    (hnd : (l.map Prod.fst).Nodup) :
    alookup (l.foldl (fun acc q =>
        ainsert acc q.1
          (((alookup acc q.1).getD FixtureValues.empty).apply_delta q.2)) acc) f =
      match alookup l f with
      | some d => some (((alookup acc f).getD FixtureValues.empty).apply_delta d)
      | none => alookup acc f := by
  induction l generalizing acc with
  | nil => simp [alookup]
  | cons q rest ih =>
    obtain ⟨k, v⟩ := q
    simp only [List.map_cons, List.nodup_cons] at hnd
    obtain ⟨hk_not, hnd'⟩ := hnd
    simp only [List.foldl_cons]
    rw [ih _ hnd']
    by_cases hf : f = k
    · subst hf
      have hrest : alookup rest f = none := alookup_eq_none_of_not_mem _ _ hk_not
      rw [hrest]
      simp [alookup, alookup_ainsert_self]
    · have hne : alookup (ainsert acc k
          (((alookup acc k).getD FixtureValues.empty).apply_delta v)) f
          = alookup acc f := alookup_ainsert_ne _ _ _ _ hf
      cases hl : alookup rest f with
      | some d => simp [alookup, hf, hl, hne]
      | none => simp [alookup, hf, hl, hne]

/-- Resolution of a single entry: every unset field becomes 0. -/
def resolveFV (v : FixtureValues) : FixtureValues :=
  ⟨some (v.intensity.getD 0), some (v.r.getD 0),
   some (v.g.getD 0), some (v.b.getD 0)⟩

theorem alookup_resolve_map (m : FVMap) (f : Nat) :
    alookup (resolve_map m) f = (alookup m f).map resolveFV := by
  induction m with
  | nil => rfl
  | cons p rest ih =>
    by_cases hf : f = p.1
    · simp [resolve_map, alookup, hf, resolveFV]
    · simp only [resolve_map, alookup, List.map_cons, if_neg hf] at ih ⊢
      exact ih

/-- C3: for every cue list, every block cue `c` at number `n` listing
fixture `f` in its changes, the tracked state evaluated at `n` maps `f` to
exactly `c`'s own delta for `f` applied to an all-unset entry, and after
resolution each field `c` leaves unset is 0 — no contribution of earlier
cues survives for `f`. -/
theorem block_cue_resets (pb : Playback) (sh : Show) (cl : CueList) (n : Nat)
    (c : Cue) (f : Nat) (d : FixtureValues)
    (hcl : alookup sh.cue_lists pb.cuelist = some cl)
    (hsorted : cl.cues.Pairwise (fun p q => p.1 < q.1))
    (hc : alookup cl.cues n = some c)
    (hb : c.block = true)
    (hd : alookup c.changes f = some d)
    (hnd : (c.changes.map Prod.fst).Nodup) :
    ∃ tm, pb.tracked_state_at sh n = some tm ∧
      alookup tm f = some (FixtureValues.empty.apply_delta d) ∧
      alookup (resolve_map tm) f = some (resolveFV d) := by
  obtain ⟨pre, hpre⟩ := takeWhile_sorted_split cl.cues n c hsorted hc
  have hstep : ∀ acc : FVMap,
      alookup (trackStep acc (n, c)) f
        = some (FixtureValues.empty.apply_delta d) := by
    intro acc
    unfold trackStep
    simp only [hb, if_true]
    rw [apply_fold_lookup _ _ _ hnd, hd]
    rw [block_fold_lookup]
    have hfm : f ∈ c.changes.map Prod.fst :=
      (alookup_isSome_iff_mem _ _).mp (by simp [hd])
    rw [if_pos hfm]
    rfl
  have hres : resolveFV (FixtureValues.empty.apply_delta d) = resolveFV d := by
    rcases d with ⟨di, dr, dg, db⟩
    cases di <;> cases dr <;> cases dg <;> cases db <;> rfl
  unfold Playback.tracked_state_at
  rw [hcl]
  refine ⟨_, rfl, ?_, ?_⟩
  · rw [hpre, List.foldl_append]
    simp only [List.foldl_cons, List.foldl_nil]
    exact hstep _
  · rw [alookup_resolve_map]
    rw [hpre, List.foldl_append]
    simp only [List.foldl_cons, List.foldl_nil]
    rw [hstep _]
    simp [hres]

def cueW3a : Cue :=
  ⟨1, "look", false, 0, 0, [(1, ⟨some 200, some 10, none, none⟩)]⟩
def cueW3b : Cue :=
  ⟨2, "blk", true, 0, 0, [(1, ⟨none, some 255, none, none⟩)]⟩

def shW3 : Show :=
  { name := "W3", patch := ⟨[], []⟩,
    cue_lists := [("main", ⟨[(1, cueW3a), (2, cueW3b)]⟩)] }

def pbW3 : Playback := Playback.new "main"

/-- Witness for C3: cue 1 sets intensity 200 and red 10, block cue 2 sets
only red 255; tracked state at cue 2 keeps nothing of cue 1 for fixture 1
and resolves to intensity 0, red 255. -/
theorem block_cue_resets_witness :
    ∃ tm, pbW3.tracked_state_at shW3 2 = some tm ∧
      alookup tm 1 = some
        (FixtureValues.empty.apply_delta ⟨none, some 255, none, none⟩) ∧
      alookup (resolve_map tm) 1 = some (resolveFV ⟨none, some 255, none, none⟩) :=
  block_cue_resets pbW3 shW3 ⟨[(1, cueW3a), (2, cueW3b)]⟩ 2 cueW3b 1
    ⟨none, some 255, none, none⟩
    (by decide) (by decide) (by decide) (by decide) (by decide) (by decide)

/-! ## C5: go() picks the next cue -/

theorem sorted_head_min (n0 : Nat) (rest : List Nat)
    (hs : (n0 :: rest).Pairwise (fun a b => a < b)) : ∀ k ∈ n0 :: rest, n0 ≤ k := by
  rw [List.pairwise_cons] at hs
  intro k hk
  rcases List.mem_cons.mp hk with h | h
  · subst h; exact Nat.le_refl _
  · exact Nat.le_of_lt (hs.1 k h)

theorem find_sorted_min (l : List Nat) (p : Nat → Bool) (m : Nat)
    (hs : l.Pairwise (fun a b => a < b)) (hf : l.find? p = some m) :
    ∀ k ∈ l, p k = true → m ≤ k := by
  induction l with
  | nil => simp at hf
  | cons a rest ih =>
    rw [List.pairwise_cons] at hs
    obtain ⟨ha, hs'⟩ := hs
    intro k hk hp
    cases hpa : p a with
    | true =>
      rw [List.find?_cons_of_pos _ hpa] at hf
      injection hf with hf
      subst hf
      rcases List.mem_cons.mp hk with h | h
      · subst h; exact Nat.le_refl _
      · exact Nat.le_of_lt (ha k h)
    | false =>
      rw [List.find?_cons_of_neg _ (by simp [hpa])] at hf
      rcases List.mem_cons.mp hk with h | h
      · subst h; rw [hpa] at hp; exact absurd hp (by simp)
      · exact ih hs' hf k h hp

/-- C5: with the cue list of the playback's cuelist name present and
sorted, `go()` on an empty list sets Idle and returns `None`; otherwise the
activated cue (also the returned value) is the smallest cue number
strictly greater than `current` when a successor exists, the first cue
when `current` is `None`, and `current` itself when there is no successor. -/
theorem go_spec (pb : Playback) (sh : Show) (cl : CueList)
    (hcl : alookup sh.cue_lists pb.cuelist = some cl)
    (hsorted : cl.cues.Pairwise (fun p q => p.1 < q.1)) :
    (cl.cues = [] →
      pb.go sh = some ({ pb with current := none, transition := none }, none)) ∧
    (cl.cues ≠ [] →
      ∃ pb' m, pb.go sh = some (pb', some m) ∧ pb'.current = some m ∧
        (pb.current = none →
          m ∈ cl.cues.map Prod.fst ∧ ∀ k ∈ cl.cues.map Prod.fst, m ≤ k) ∧
        (∀ cur, pb.current = some cur →
          ((∃ k ∈ cl.cues.map Prod.fst, cur < k) →
            m ∈ cl.cues.map Prod.fst ∧ cur < m ∧
              ∀ k ∈ cl.cues.map Prod.fst, cur < k → m ≤ k) ∧
          ((∀ k ∈ cl.cues.map Prod.fst, ¬ cur < k) → m = cur))) := by
  have hsorted' : (cl.cues.map Prod.fst).Pairwise (fun a b => a < b) :=
    hsorted.map Prod.fst (fun a b h => h)
  constructor
  · intro hempty
    unfold Playback.go
    rw [hcl]
    simp only []
    rw [hempty]
    rfl
  · intro hne
    cases hnums : cl.cues.map Prod.fst with
    | nil => exact absurd (List.map_eq_nil_iff.mp hnums) hne
    | cons n0 rest =>
      have hs2 : (n0 :: rest).Pairwise (fun a b => a < b) := hnums ▸ hsorted'
      cases hc : pb.current with
      | none =>
        obtain ⟨pbA, hact⟩ : ∃ x, pb.activate sh n0 = some x := by
          have := activate_isSome pb sh cl n0 hcl
          cases h : pb.activate sh n0 with
          | none => rw [h] at this; simp at this
          | some x => exact ⟨x, rfl⟩
        obtain ⟨_, _, _, _, hcur, _⟩ := activate_cases pb sh n0 pbA hact
        have hgo : pb.go sh = some (pbA, some n0) := by
          unfold Playback.go
          rw [hcl]
          simp only []
          rw [hnums]
          simp only []
          rw [hc]
          simp only []
          rw [hact]
          simp only []
          rw [hcur]
        refine ⟨pbA, n0, hgo, hcur, ?_, ?_⟩
        · intro _
          exact ⟨List.mem_cons_self _ _, sorted_head_min n0 rest hs2⟩
        · intro cur hcontra
          exact Option.noConfusion hcontra
      | some cur =>
        cases hfind : (n0 :: rest).find? (fun n => cur < n) with
        | some m0 =>
          obtain ⟨pbA, hact⟩ : ∃ x, pb.activate sh m0 = some x := by
            have := activate_isSome pb sh cl m0 hcl
            cases h : pb.activate sh m0 with
            | none => rw [h] at this; simp at this
            | some x => exact ⟨x, rfl⟩
          obtain ⟨_, _, _, _, hcur, _⟩ := activate_cases pb sh m0 pbA hact
          have hgo : pb.go sh = some (pbA, some m0) := by
            unfold Playback.go
            rw [hcl]
            simp only []
            rw [hnums]
            simp only []
            rw [hc]
            simp only []
            rw [hfind]
            simp only [Option.getD_some]
            rw [hact]
            simp only []
            rw [hcur]
          have hm0mem : m0 ∈ n0 :: rest := List.mem_of_find?_eq_some hfind
          have hm0lt : cur < m0 := by
            have hp := List.find?_some hfind
            simpa using hp
          have hmin := find_sorted_min _ _ m0 hs2 hfind
          refine ⟨pbA, m0, hgo, hcur, ?_, ?_⟩
          · intro hcontra
            exact Option.noConfusion hcontra
          · intro cur' hcur'
            injection hcur' with hcur'
            subst hcur'
            constructor
            · intro _
              exact ⟨hm0mem, hm0lt,
                fun k hk hlt => hmin k hk (decide_eq_true hlt)⟩
            · intro hno
              exact absurd hm0lt (hno m0 hm0mem)
        | none =>
          obtain ⟨pbA, hact⟩ : ∃ x, pb.activate sh cur = some x := by
            have := activate_isSome pb sh cl cur hcl
            cases h : pb.activate sh cur with
            | none => rw [h] at this; simp at this
            | some x => exact ⟨x, rfl⟩
          obtain ⟨_, _, _, _, hcur, _⟩ := activate_cases pb sh cur pbA hact
          have hgo : pb.go sh = some (pbA, some cur) := by
            unfold Playback.go
            rw [hcl]
            simp only []
            rw [hnums]
            simp only []
            rw [hc]
            simp only []
            rw [hfind]
            simp only [Option.getD_none]
            rw [hact]
            simp only []
            rw [hcur]
          have hnone := List.find?_eq_none.mp hfind
          refine ⟨pbA, cur, hgo, hcur, ?_, ?_⟩
          · intro hcontra
            exact Option.noConfusion hcontra
          · intro cur' hcur'
            injection hcur' with hcur'
            subst hcur'
            constructor
            · intro ⟨k, hk, hlt⟩
              exfalso
              have := hnone k hk
              simp at this
              omega
            · intro _
              rfl

def cueW5 (n : Nat) : Cue := ⟨n, "c", false, 0, 0, []⟩

def shW5 : Show :=
  { name := "W5", patch := ⟨[], []⟩,
    cue_lists :=
      [("main", ⟨[(1, cueW5 1), (3, cueW5 3), (5, cueW5 5)]⟩),
       ("empty", ⟨[]⟩)] }

def pbW5 : Playback :=
  { cuelist := "main", current := some 1, mode := .Tracking, transition := none }

def pbW5e : Playback := Playback.new "empty"

/-- Witness for C5: on the empty list, `go` idles and returns `None`; on
the list {1, 3, 5} with current 1, the successor properties hold. -/
theorem go_spec_witness :
    pbW5e.go shW5 = some ({ pbW5e with current := none, transition := none }, none) ∧
    (∃ pb' m, pbW5.go shW5 = some (pb', some m) ∧ pb'.current = some m ∧
      (pbW5.current = none →
        m ∈ (⟨[(1, cueW5 1), (3, cueW5 3), (5, cueW5 5)]⟩ : CueList).cues.map Prod.fst ∧
          ∀ k ∈ (⟨[(1, cueW5 1), (3, cueW5 3), (5, cueW5 5)]⟩ : CueList).cues.map Prod.fst, m ≤ k) ∧
      (∀ cur, pbW5.current = some cur →
        ((∃ k ∈ (⟨[(1, cueW5 1), (3, cueW5 3), (5, cueW5 5)]⟩ : CueList).cues.map Prod.fst, cur < k) →
          m ∈ (⟨[(1, cueW5 1), (3, cueW5 3), (5, cueW5 5)]⟩ : CueList).cues.map Prod.fst ∧ cur < m ∧
            ∀ k ∈ (⟨[(1, cueW5 1), (3, cueW5 3), (5, cueW5 5)]⟩ : CueList).cues.map Prod.fst, cur < k → m ≤ k) ∧
        ((∀ k ∈ (⟨[(1, cueW5 1), (3, cueW5 3), (5, cueW5 5)]⟩ : CueList).cues.map Prod.fst, ¬ cur < k) → m = cur))) :=
  ⟨(go_spec pbW5e shW5 ⟨[]⟩ (by decide) (by decide)).1 rfl,
   (go_spec pbW5 shW5 ⟨[(1, cueW5 1), (3, cueW5 3), (5, cueW5 5)]⟩
      (by decide) (by decide)).2 (by decide)⟩

/-! ## C1: transition endpoints and midpoint -/

theorem wrap32_eq_self (n : Int) (h1 : -(2 ^ 31) ≤ n) (h2 : n < 2 ^ 31) :
    wrap32 n = n := by
  unfold wrap32
  rw [Int.emod_eq_of_lt (by omega) (by omega)]
  omega

/-- With `a, b ≤ 255`, `t ≤ dur` and `dur ≤ 8421504`, none of the `i32`
casts and products in `lerp_u8` wraps, so the machine arithmetic agrees
with the ideal integer formula `clamp(a + (b - a) * t / dur)`. -/
theorem lerp_u8_no_overflow (a b t dur : Nat) (ha : a ≤ 255) (hb : b ≤ 255)
    (ht : t ≤ dur) (hdur : dur ≠ 0) (hd : dur ≤ 8421504) :
    lerp_u8 a b t dur =
      (max 0 (min ((a : Int) + Int.tdiv (((b : Int) - a) * t) dur) 255)).toNat := by
  unfold lerp_u8
  rw [if_neg hdur]
  simp only []
  have hta : (0 : Int) ≤ (t : Int) := by positivity
  have htb : (t : Int) ≤ 8421504 := by exact_mod_cast le_trans ht hd
  have hw1 : wrap32 (t : Int) = (t : Int) := wrap32_eq_self _ (by omega) (by omega)
  have hd1 : ((b : Int) - a) ≤ 255 := by omega
  have hd2 : -255 ≤ ((b : Int) - a) := by omega
  have hub : ((b : Int) - a) * t ≤ 255 * 8421504 :=
    calc ((b : Int) - a) * t ≤ 255 * t := mul_le_mul_of_nonneg_right hd1 hta
      _ ≤ 255 * 8421504 := mul_le_mul_of_nonneg_left htb (by norm_num)
  have hlb : (-(255 * 8421504) : Int) ≤ ((b : Int) - a) * t :=
    calc (-(255 * 8421504) : Int) = (-255 : Int) * 8421504 := by ring
      _ ≤ (-255 : Int) * t := mul_le_mul_of_nonpos_left htb (by norm_num)
      _ ≤ ((b : Int) - a) * t := mul_le_mul_of_nonneg_right hd2 hta
  have hw2 : wrap32 (((b : Int) - a) * t) = ((b : Int) - a) * t :=
    wrap32_eq_self _ (by omega) (by omega)
  have hw3 : wrap32 (dur : Int) = (dur : Int) := wrap32_eq_self _ (by omega) (by omega)
  rw [hw1, hw2, hw3]
  have hq : (Int.tdiv (((b : Int) - a) * t) dur).natAbs ≤ 255 := by
    rw [Int.natAbs_tdiv]
    simp only [Int.natAbs_ofNat]
    have hxa : (((b : Int) - a) * t).natAbs ≤ 255 * dur := by
      rw [Int.natAbs_mul]
      have h1 : ((b : Int) - a).natAbs ≤ 255 := by omega
      have h2 : ((t : Int)).natAbs = t := Int.natAbs_ofNat t
      rw [h2]
      exact Nat.mul_le_mul h1 ht
    calc (((b : Int) - a) * t).natAbs / dur ≤ 255 * dur / dur :=
          Nat.div_le_div_right hxa
      _ = 255 := Nat.mul_div_cancel _ (by omega)
  have hw4 : wrap32 ((a : Int) + Int.tdiv (((b : Int) - a) * t) dur)
      = (a : Int) + Int.tdiv (((b : Int) - a) * t) dur :=
    wrap32_eq_self _ (by omega) (by omega)
  rw [hw4]

theorem lerp_u8_at_zero (a b dur : Nat) (ha : a ≤ 255) (hb : b ≤ 255)
    (hdur : dur ≠ 0) (hd : dur ≤ 8421504) : lerp_u8 a b 0 dur = a := by
  rw [lerp_u8_no_overflow a b 0 dur ha hb (Nat.zero_le _) hdur hd]
  simp only [Nat.cast_zero, mul_zero, Int.zero_tdiv, add_zero]
  omega

theorem lerp_u8_at_full (a b dur : Nat) (ha : a ≤ 255) (hb : b ≤ 255)
    (hdur : dur ≠ 0) (hd : dur ≤ 8421504) : lerp_u8 a b dur dur = b := by
  rw [lerp_u8_no_overflow a b dur dur ha hb (Nat.le_refl _) hdur hd]
  rw [Int.mul_tdiv_cancel _ (by exact_mod_cast hdur)]
  omega

theorem tdiv_mul_half (d : Int) (k : Nat) (hk : 0 < k) :
    Int.tdiv (d * k) (2 * k) = Int.tdiv d 2 := by
  have hcast : ∀ a b : Nat, Int.tdiv (a : Int) (b : Int) = ((a / b : Nat) : Int) :=
    fun a b => rfl
  have h2k : (2 : Int) * (k : Int) = ((2 * k : Nat) : Int) := by push_cast; ring
  rcases d with m | m
  · show Int.tdiv ((m : Int) * (k : Int)) (2 * (k : Int)) = Int.tdiv (m : Int) 2
    rw [show ((m : Int) * (k : Int)) = ((m * k : Nat) : Int) by push_cast; ring, h2k,
      hcast, show (2 : Int) = ((2 : Nat) : Int) from rfl, hcast,
      Nat.mul_div_mul_right _ _ hk]
  · rw [Int.negSucc_eq]
    rw [show ((-((m : Int) + 1)) * (k : Int)) = -(((m + 1) * k : Nat) : Int) by
      push_cast; ring]
    rw [h2k, Int.neg_tdiv, hcast]
    rw [show (-((m : Int) + 1)) = -(((m + 1 : Nat) : Int)) by push_cast; ring]
    rw [Int.neg_tdiv, show (2 : Int) = ((2 : Nat) : Int) from rfl, hcast]
    rw [Nat.mul_div_mul_right _ _ hk]

/-- The claim's midpoint value: `from + (to - from) / 2`, division
truncating toward zero, clamped to `[0, 255]`. -/
def midChan (a b : Nat) : Nat :=
  (max 0 (min ((a : Int) + Int.tdiv ((b : Int) - a) 2) 255)).toNat

theorem lerp_u8_at_mid (a b dur : Nat) (ha : a ≤ 255) (hb : b ≤ 255)
    (hdur : dur ≠ 0) (heven : dur % 2 = 0) (hd : dur ≤ 8421504) :
    lerp_u8 a b (dur / 2) dur = midChan a b := by
  rw [lerp_u8_no_overflow a b (dur / 2) dur ha hb (Nat.div_le_self _ _) hdur hd]
  unfold midChan
  have hdd : ((dur : Nat) : Int) = 2 * ((dur / 2 : Nat) : Int) := by
    have : dur = 2 * (dur / 2) := by omega
    exact_mod_cast this
  rw [hdd, tdiv_mul_half _ _ (by omega)]

theorem interpolate_lookup (f t : FVMap) (tt dur : Nat) (fid : Nat) :
    alookup (interpolate_maps f t tt dur) fid =
      if fid ∈ f.map Prod.fst ∨ fid ∈ t.map Prod.fst then
        some
          { intensity := some (lerp_u8 (((alookup f fid).getD allZeroFV).intensity.getD 0)
              (((alookup t fid).getD allZeroFV).intensity.getD 0) tt dur)
            r := some (lerp_u8 (((alookup f fid).getD allZeroFV).r.getD 0)
              (((alookup t fid).getD allZeroFV).r.getD 0) tt dur)
            g := some (lerp_u8 (((alookup f fid).getD allZeroFV).g.getD 0)
              (((alookup t fid).getD allZeroFV).g.getD 0) tt dur)
            b := some (lerp_u8 (((alookup f fid).getD allZeroFV).b.getD 0)
              (((alookup t fid).getD allZeroFV).b.getD 0) tt dur) }
      else none := by
  unfold interpolate_maps
  simp only []
  rw [alookup_map_over_keys]
  by_cases hm : fid ∈ f.map Prod.fst ∨ fid ∈ t.map Prod.fst
  · rw [if_pos (by
      rw [mem_foldl_natSetInsert]
      right
      rw [List.mem_append]
      exact hm), if_pos hm]
  · rw [if_neg (by
      rw [mem_foldl_natSetInsert]
      intro hcon
      rcases hcon with hcon | hcon
      · simp at hcon
      · rw [List.mem_append] at hcon
        exact hm hcon), if_neg hm]

/-- The value invariant of a fully resolved map entry: all four fields set,
all within the `u8` range. -/
def FixtureValues.resolvedByte (v : FixtureValues) : Prop :=
  v.intensity.isSome = true ∧ v.intensity.getD 0 ≤ 255 ∧
  v.r.isSome = true ∧ v.r.getD 0 ≤ 255 ∧
  v.g.isSome = true ∧ v.g.getD 0 ≤ 255 ∧
  v.b.isSome = true ∧ v.b.getD 0 ≤ 255

instance (v : FixtureValues) : Decidable v.resolvedByte := by
  unfold FixtureValues.resolvedByte
  infer_instance

/-- All entries of the map are fully resolved `u8` values. -/
def ResolvedMap (m : FVMap) : Prop := ∀ p ∈ m, p.2.resolvedByte

instance (m : FVMap) : Decidable (ResolvedMap m) := by
  unfold ResolvedMap
  infer_instance

theorem resolvedByte_eta (v : FixtureValues) (h : v.resolvedByte) :
    v = ⟨some (v.intensity.getD 0), some (v.r.getD 0),
         some (v.g.getD 0), some (v.b.getD 0)⟩ := by
  obtain ⟨h1, _, h2, _, h3, _, h4, _⟩ := h
  rcases v with ⟨i, r, g, b⟩
  simp only at h1 h2 h3 h4 ⊢
  cases i <;> cases r <;> cases g <;> cases b <;> simp_all

theorem resolvedMap_lookup (m : FVMap) (fid : Nat) (v : FixtureValues)
    (hm : ResolvedMap m) (hl : alookup m fid = some v) : v.resolvedByte :=
  hm (fid, v) (alookup_mem m fid v hl)

/-- C1 (amended): for a playback in a transition whose endpoint maps are
fully resolved `u8` maps over the same fixture keys, with the timing
actually produced by `activate` (fade and delay not both zero) and
`fade_ms ≤ 8421504` (no `i32` overflow in the interpolation products):
at `elapsed = 0` the output state map equals `from` (pointwise); at
`elapsed ≥ delay + fade` it equals `to`; and when `fade` is even and
nonzero, at `elapsed = delay + fade / 2` every channel of every fixture
equals `from + (to - from) / 2` under truncating integer division,
clamped to `[0, 255]`. -/
theorem transition_endpoints (pb : Playback) (sh : Show) (tr : Transition)
    (htr : pb.transition = some tr)
    (hresf : ResolvedMap tr.fromMap) (hrest : ResolvedMap tr.toMap)
    (hdom : tr.fromMap.map Prod.fst = tr.toMap.map Prod.fst)
    (hnz : tr.fade_ms ≠ 0 ∨ tr.delay_ms ≠ 0)
    (hfade : tr.fade_ms ≤ 8421504) :
    ∃ out, pb.output_state_map sh = some out ∧
      (tr.elapsed_ms = 0 → ∀ fid, alookup out fid = alookup tr.fromMap fid) ∧
      (tr.delay_ms + tr.fade_ms ≤ tr.elapsed_ms →
        ∀ fid, alookup out fid = alookup tr.toMap fid) ∧
      (tr.fade_ms ≠ 0 → tr.fade_ms % 2 = 0 →
        tr.elapsed_ms = tr.delay_ms + tr.fade_ms / 2 →
        ∀ fid fv tv, alookup tr.fromMap fid = some fv →
          alookup tr.toMap fid = some tv →
          alookup out fid = some
            ⟨some (midChan (fv.intensity.getD 0) (tv.intensity.getD 0)),
             some (midChan (fv.r.getD 0) (tv.r.getD 0)),
             some (midChan (fv.g.getD 0) (tv.g.getD 0)),
             some (midChan (fv.b.getD 0) (tv.b.getD 0))⟩) := by
  rw [output_state_map_transition pb sh tr htr]
  refine ⟨_, rfl, ?_, ?_, ?_⟩
  · -- elapsed = 0: output is pointwise `from`
    intro he fid
    by_cases hdel : 0 < tr.delay_ms
    · rw [if_pos (by omega)]
    · have hf0 : tr.fade_ms ≠ 0 := by
        rcases hnz with h | h
        · exact h
        · omega
      rw [if_neg (by omega), if_neg hf0]
      have htt : min (tr.elapsed_ms - tr.delay_ms) tr.fade_ms = 0 := by omega
      rw [htt, interpolate_lookup]
      by_cases hmem : fid ∈ tr.fromMap.map Prod.fst ∨ fid ∈ tr.toMap.map Prod.fst
      · rw [if_pos hmem]
        have hmf : fid ∈ tr.fromMap.map Prod.fst := by
          rcases hmem with h | h
          · exact h
          · rw [hdom]; exact h
        have hmt : fid ∈ tr.toMap.map Prod.fst := by rw [← hdom]; exact hmf
        obtain ⟨fv, hfv⟩ : ∃ v, alookup tr.fromMap fid = some v := by
          have := (alookup_isSome_iff_mem tr.fromMap fid).mpr hmf
          cases h : alookup tr.fromMap fid with
          | none => rw [h] at this; simp at this
          | some v => exact ⟨v, rfl⟩
        obtain ⟨tv, htv⟩ : ∃ v, alookup tr.toMap fid = some v := by
          have := (alookup_isSome_iff_mem tr.toMap fid).mpr hmt
          cases h : alookup tr.toMap fid with
          | none => rw [h] at this; simp at this
          | some v => exact ⟨v, rfl⟩
        obtain ⟨hf1, hf2, hf3, hf4, hf5, hf6, hf7, hf8⟩ :=
          resolvedMap_lookup _ _ _ hresf hfv
        obtain ⟨ht1, ht2, ht3, ht4, ht5, ht6, ht7, ht8⟩ :=
          resolvedMap_lookup _ _ _ hrest htv
        rw [hfv, htv]
        simp only [Option.getD_some]
        rw [lerp_u8_at_zero _ _ _ hf2 ht2 hf0 hfade,
          lerp_u8_at_zero _ _ _ hf4 ht4 hf0 hfade,
          lerp_u8_at_zero _ _ _ hf6 ht6 hf0 hfade,
          lerp_u8_at_zero _ _ _ hf8 ht8 hf0 hfade]
        exact congrArg some (resolvedByte_eta fv ⟨hf1, hf2, hf3, hf4, hf5, hf6, hf7, hf8⟩).symm
      · rw [if_neg hmem]
        have hnf : fid ∉ tr.fromMap.map Prod.fst := fun h => hmem (Or.inl h)
        rw [alookup_eq_none_of_not_mem _ _ hnf]
  · -- elapsed ≥ delay + fade: output is pointwise `to`
    intro hge fid
    rw [if_neg (by omega)]
    by_cases hf0 : tr.fade_ms = 0
    · rw [if_pos hf0]
    · rw [if_neg hf0]
      have htt : min (tr.elapsed_ms - tr.delay_ms) tr.fade_ms = tr.fade_ms := by omega
      rw [htt, interpolate_lookup]
      by_cases hmem : fid ∈ tr.fromMap.map Prod.fst ∨ fid ∈ tr.toMap.map Prod.fst
      · rw [if_pos hmem]
        have hmt : fid ∈ tr.toMap.map Prod.fst := by
          rcases hmem with h | h
          · rw [← hdom]; exact h
          · exact h
        have hmf : fid ∈ tr.fromMap.map Prod.fst := by rw [hdom]; exact hmt
        obtain ⟨fv, hfv⟩ : ∃ v, alookup tr.fromMap fid = some v := by
          have := (alookup_isSome_iff_mem tr.fromMap fid).mpr hmf
          cases h : alookup tr.fromMap fid with
          | none => rw [h] at this; simp at this
          | some v => exact ⟨v, rfl⟩
        obtain ⟨tv, htv⟩ : ∃ v, alookup tr.toMap fid = some v := by
          have := (alookup_isSome_iff_mem tr.toMap fid).mpr hmt
          cases h : alookup tr.toMap fid with
          | none => rw [h] at this; simp at this
          | some v => exact ⟨v, rfl⟩
        obtain ⟨hf1, hf2, hf3, hf4, hf5, hf6, hf7, hf8⟩ :=
          resolvedMap_lookup _ _ _ hresf hfv
        obtain ⟨ht1, ht2, ht3, ht4, ht5, ht6, ht7, ht8⟩ :=
          resolvedMap_lookup _ _ _ hrest htv
        rw [hfv, htv]
        simp only [Option.getD_some]
        rw [lerp_u8_at_full _ _ _ hf2 ht2 hf0 hfade,
          lerp_u8_at_full _ _ _ hf4 ht4 hf0 hfade,
          lerp_u8_at_full _ _ _ hf6 ht6 hf0 hfade,
          lerp_u8_at_full _ _ _ hf8 ht8 hf0 hfade]
        exact congrArg some (resolvedByte_eta tv ⟨ht1, ht2, ht3, ht4, ht5, ht6, ht7, ht8⟩).symm
      · rw [if_neg hmem]
        have hnt : fid ∉ tr.toMap.map Prod.fst := fun h => hmem (Or.inr h)
        rw [alookup_eq_none_of_not_mem _ _ hnt]
  · -- midpoint with even, nonzero fade
    intro hf0 heven he fid fv tv hfv htv
    rw [if_neg (by omega), if_neg hf0]
    have htt : min (tr.elapsed_ms - tr.delay_ms) tr.fade_ms = tr.fade_ms / 2 := by omega
    rw [htt, interpolate_lookup]
    have hmf : fid ∈ tr.fromMap.map Prod.fst :=
      (alookup_isSome_iff_mem tr.fromMap fid).mp (by simp [hfv])
    rw [if_pos (Or.inl hmf)]
    obtain ⟨hf1, hf2, hf3, hf4, hf5, hf6, hf7, hf8⟩ :=
      resolvedMap_lookup _ _ _ hresf hfv
    obtain ⟨ht1, ht2, ht3, ht4, ht5, ht6, ht7, ht8⟩ :=
      resolvedMap_lookup _ _ _ hrest htv
    rw [hfv, htv]
    simp only [Option.getD_some]
    rw [lerp_u8_at_mid _ _ _ hf2 ht2 hf0 heven hfade,
      lerp_u8_at_mid _ _ _ hf4 ht4 hf0 heven hfade,
      lerp_u8_at_mid _ _ _ hf6 ht6 hf0 heven hfade,
      lerp_u8_at_mid _ _ _ hf8 ht8 hf0 heven hfade]

def trC1 : Transition :=
  ⟨[], [(1, ⟨some 255, some 255, some 255, some 255⟩)], 0, 1000, 0⟩

def pbC1 : Playback :=
  { cuelist := "main", current := some 2, mode := .Tracking, transition := some trC1 }

def shC1 : Show := { name := "C1", patch := ⟨[], []⟩, cue_lists := [("main", ⟨[]⟩)] }

/-- C1 counterexample: a playback in a transition with fully resolved
endpoint maps (`from` empty, `to` holding fixture 1) whose delay is 0: at
`elapsed = 0` the claim says the output equals `from`, but the
interpolation runs over `keys(from) ∪ keys(to)` and emits an all-zero
entry for fixture 1, so the output differs from `from`. -/
theorem transition_endpoints_counterexample :
    pbC1.transition = some trC1 ∧
    ResolvedMap trC1.fromMap ∧ ResolvedMap trC1.toMap ∧
    trC1.elapsed_ms = 0 ∧
    pbC1.output_state_map shC1 ≠ some trC1.fromMap := by
  decide

def fromW1 : FVMap := [(1, ⟨some 0, some 10, some 20, some 255⟩)]
def toW1 : FVMap := [(1, ⟨some 255, some 10, some 0, some 100⟩)]

def trW1 (e : Nat) : Transition := ⟨fromW1, toW1, e, 1000, 100⟩

def pbW1 (e : Nat) : Playback :=
  { cuelist := "main", current := some 2, mode := .Tracking,
    transition := some (trW1 e) }

/-- Witness for C1 (amended) at fade 1000, delay 100: the three clauses at
elapsed 0, 1100 and 600 respectively. -/
theorem transition_endpoints_witness :
    (∃ out, (pbW1 0).output_state_map shC1 = some out ∧
      ∀ fid, alookup out fid = alookup (trW1 0).fromMap fid) ∧
    (∃ out, (pbW1 1100).output_state_map shC1 = some out ∧
      ∀ fid, alookup out fid = alookup (trW1 1100).toMap fid) ∧
    (∃ out, (pbW1 600).output_state_map shC1 = some out ∧
      alookup out 1 = some
        ⟨some (midChan 0 255), some (midChan 10 10),
         some (midChan 20 0), some (midChan 255 100)⟩) := by
  refine ⟨?_, ?_, ?_⟩
  · obtain ⟨out, hout, h1, _, _⟩ :=
      transition_endpoints (pbW1 0) shC1 (trW1 0) rfl
        (by decide) (by decide) (by decide) (by decide) (by decide)
    exact ⟨out, hout, h1 rfl⟩
  · obtain ⟨out, hout, _, h2, _⟩ :=
      transition_endpoints (pbW1 1100) shC1 (trW1 1100) rfl
        (by decide) (by decide) (by decide) (by decide) (by decide)
    exact ⟨out, hout, h2 (by decide)⟩
  · obtain ⟨out, hout, _, _, h3⟩ :=
      transition_endpoints (pbW1 600) shC1 (trW1 600) rfl
        (by decide) (by decide) (by decide) (by decide) (by decide)
    exact ⟨out, hout,
      h3 (by decide) (by decide) (by decide) 1
        ⟨some 0, some 10, some 20, some 255⟩
        ⟨some 255, some 10, some 0, some 100⟩ (by decide) (by decide)⟩

/-! ## C7: DMX address projection and range safety -/

/-- The value a channel kind draws from a `FixtureValues` (the `match` in
`render_fixture_values`). -/
def channelValue (vals : FixtureValues) : ChannelKind → Option Nat
  | .Intensity => vals.intensity
  | .ColorR => vals.r
  | .ColorG => vals.g
  | .ColorB => vals.b
  | _ => none

/-- Every address stored in the state lies in `[1, 512]`. -/
def AddrOk (ls : LiveState) : Prop :=
  ∀ p ∈ ls.universes, ∀ q ∈ p.2, 1 ≤ q.1 ∧ q.1 ≤ 512

instance (ls : LiveState) : Decidable (AddrOk ls) := by
  unfold AddrOk
  infer_instance

theorem AddrOk_set (ls : LiveState) (u a v : Nat) (hls : AddrOk ls)
    (ha1 : 1 ≤ a) (ha2 : a ≤ 512) : AddrOk (ls.set u a v) := by
  intro p hp q hq
  unfold LiveState.set at hp
  simp only [] at hp
  rcases mem_ainsert _ _ _ _ hp with hpe | hpm
  · subst hpe
    simp only [] at hq
    rcases mem_ainsert _ _ _ _ hq with hqe | hqm
    · subst hqe
      exact ⟨ha1, ha2⟩
    · cases hl : alookup ls.universes u with
      | none => rw [hl] at hqm; simp at hqm
      | some inner =>
        rw [hl] at hqm
        exact hls (u, inner) (alookup_mem _ _ _ hl) q hqm
  · exact hls p hpm q hq

theorem set_get_same (ls : LiveState) (u a v : Nat) :
    (ls.set u a v).get? u a = some v := by
  unfold LiveState.set LiveState.get?
  simp only []
  rw [alookup_ainsert_self]
  exact alookup_ainsert_self _ _ _

theorem set_get_other (ls : LiveState) (u a v u' a' : Nat)
    (hne : u' ≠ u ∨ a' ≠ a) : (ls.set u a v).get? u' a' = ls.get? u' a' := by
  unfold LiveState.set LiveState.get?
  simp only []
  rcases hne with hne | hne
  · rw [alookup_ainsert_ne _ _ _ _ hne]
  · by_cases hu : u' = u
    · subst hu
      rw [alookup_ainsert_self]
      cases hl : alookup ls.universes u' with
      | none =>
        simp only [Option.getD_none]
        show alookup (ainsert [] a v) a' = none
        rw [show ainsert ([] : List (Nat × Nat)) a v = [(a, v)] from rfl]
        simp [alookup, hne]
      | some inner =>
        simp only [Option.getD_some]
        show alookup (ainsert inner a v) a' = alookup inner a'
        exact alookup_ainsert_ne _ _ _ _ hne
    · rw [alookup_ainsert_ne _ _ _ _ hu]

theorem renderChannels_addrOk (f : FixtureInstance) (vals : FixtureValues)
    (chs : List ChannelDef) (i : Nat) (live live' : LiveState)
    (hok : AddrOk live) (h : renderChannels f vals chs i live = some live') :
    AddrOk live' := by
  induction chs generalizing i live with
  | nil =>
    unfold renderChannels at h
    injection h with h
    rw [← h]
    exact hok
  | cons ch rest ih =>
    unfold renderChannels at h
    simp only [] at h
    split at h
    · rename_i hcond
      refine ih (i + 1) _ ?_ h
      cases hvo : (match ch.kind with
          | ChannelKind.Intensity => vals.intensity
          | ChannelKind.ColorR => vals.r
          | ChannelKind.ColorG => vals.g
          | ChannelKind.ColorB => vals.b
          | _ => none) with
      | none => exact hok
      | some v => exact AddrOk_set _ _ _ _ hok hcond.1 hcond.2
    · exact absurd h (by simp)

theorem render_fixture_values_addrOk (sh : Show) (fid : Nat)
    (vals : FixtureValues) (live live' : LiveState)
    (hok : AddrOk live) (h : render_fixture_values sh fid vals live = some live') :
    AddrOk live' := by
  unfold render_fixture_values at h
  cases hf : alookup sh.patch.fixtures fid with
  | none => rw [hf] at h; simp at h
  | some f =>
    rw [hf] at h
    simp only [] at h
    cases hft : alookup sh.patch.fixture_types f.fixture_type with
    | none => rw [hft] at h; simp at h
    | some ft =>
      rw [hft] at h
      exact renderChannels_addrOk f vals ft.channels 0 live live' hok h

theorem renderAll_addrOk (sh : Show) (m : FVMap) (live live' : LiveState)
    (hok : AddrOk live) (h : renderAll sh m live = some live') :
    AddrOk live' := by
  induction m generalizing live with
  | nil =>
    unfold renderAll at h
    injection h with h
    rw [← h]
    exact hok
  | cons p rest ih =>
    obtain ⟨fid, vals⟩ := p
    unfold renderAll at h
    cases hr : render_fixture_values sh fid vals live with
    | none => rw [hr] at h; simp at h
    | some live1 =>
      rw [hr] at h
      exact ih live1 (render_fixture_values_addrOk sh fid vals live live1 hok hr) h

theorem progChannels_addrOk (p : Programmer) (f : FixtureInstance)
    (chs : List ChannelDef) (i : Nat) (live live' : LiveState)
    (hok : AddrOk live) (h : progChannels p f chs i live = some live') :
    AddrOk live' := by
  induction chs generalizing i live with
  | nil =>
    unfold progChannels at h
    injection h with h
    rw [← h]
    exact hok
  | cons ch rest ih =>
    unfold progChannels at h
    simp only [] at h
    split at h
    · rename_i hcond
      refine ih (i + 1) _ ?_ h
      cases hvo : (match ch.kind with
          | ChannelKind.Intensity => p.intensity
          | ChannelKind.ColorR => p.r
          | ChannelKind.ColorG => p.g
          | ChannelKind.ColorB => p.b
          | _ => none) with
      | none => exact hok
      | some v => exact AddrOk_set _ _ _ _ hok hcond.1 hcond.2
    · exact absurd h (by simp)

theorem progRenderLoop_addrOk (p : Programmer) (sh : Show) (sel : List Nat)
    (live live' : LiveState)
    (hok : AddrOk live) (h : progRenderLoop p sh sel live = some live') :
    AddrOk live' := by
  induction sel generalizing live with
  | nil =>
    unfold progRenderLoop at h
    injection h with h
    rw [← h]
    exact hok
  | cons fid rest ih =>
    unfold progRenderLoop at h
    cases hf : alookup sh.patch.fixtures fid with
    | none => rw [hf] at h; simp at h
    | some f =>
      rw [hf] at h
      simp only [] at h
      cases hft : alookup sh.patch.fixture_types f.fixture_type with
      | none => rw [hft] at h; simp at h
      | some ft =>
        rw [hft] at h
        simp only [] at h
        cases hc : progChannels p f ft.channels 0 live with
        | none => rw [hc] at h; simp at h
        | some live1 =>
          rw [hc] at h
          exact ih live1 (progChannels_addrOk p f ft.channels 0 live live1 hok hc) h

theorem inner_fold_mem (l : List (Nat × Nat)) (base : List (Nat × Nat)) (q : Nat × Nat)
    (hq : q ∈ l.foldl (fun dst r => ainsert dst r.1 r.2) base) :
    q ∈ l ∨ q ∈ base := by
  induction l generalizing base with
  | nil => exact Or.inr hq
  | cons r rest ih =>
    simp only [List.foldl_cons] at hq
    rcases ih _ hq with h | h
    · exact Or.inl (List.mem_cons_of_mem _ h)
    · rcases mem_ainsert _ _ _ _ h with he | hm
      · left
        rw [he]
        exact List.mem_cons_self _ _
      · exact Or.inr hm

theorem overlay_addrOk (ls top : LiveState) (hls : AddrOk ls) (htop : AddrOk top) :
    AddrOk (ls.overlay top) := by
  unfold LiveState.overlay
  unfold AddrOk at hls htop ⊢
  have main : ∀ (tl : List (Nat × List (Nat × Nat))) (acc : List (Nat × List (Nat × Nat))),
      (∀ p ∈ tl, ∀ q ∈ p.2, 1 ≤ q.1 ∧ q.1 ≤ 512) →
      (∀ p ∈ acc, ∀ q ∈ p.2, 1 ≤ q.1 ∧ q.1 ≤ 512) →
      ∀ p ∈ tl.foldl (fun acc p =>
          ainsert acc p.1 (p.2.foldl (fun dst q => ainsert dst q.1 q.2)
            ((alookup acc p.1).getD []))) acc,
        ∀ q ∈ p.2, 1 ≤ q.1 ∧ q.1 ≤ 512 := by
    intro tl
    induction tl with
    | nil =>
      intro acc _ hacc p hp
      exact hacc p hp
    | cons t rest ih =>
      intro acc htl hacc
      simp only [List.foldl_cons]
      refine ih _ (fun p hp => htl p (List.mem_cons_of_mem _ hp)) ?_
      intro p hp q hq
      rcases mem_ainsert _ _ _ _ hp with hpe | hpm
      · subst hpe
        simp only [] at hq
        rcases inner_fold_mem _ _ _ hq with hql | hqb
        · exact htl t (List.mem_cons_self _ _) q hql
        · cases hl : alookup acc t.1 with
          | none => rw [hl] at hqb; simp at hqb
          | some inner =>
            rw [hl] at hqb
            exact hacc (t.1, inner) (alookup_mem _ _ _ hl) q hqb
      · exact hacc p hpm q hq
  exact main top.universes ls.universes htop hls

theorem renderChannels_success_addrs (f : FixtureInstance) (vals : FixtureValues)
    (chs : List ChannelDef) (j : Nat) (live live' : LiveState)
    (hj : f.address + j < 2 ^ 16)
    (h : renderChannels f vals chs j live = some live') :
    ∀ i, i < chs.length → 1 ≤ f.address + (j + i) ∧ f.address + (j + i) ≤ 512 := by
  induction chs generalizing j live with
  | nil =>
    intro i hi
    simp at hi
  | cons ch rest ih =>
    unfold renderChannels at h
    simp only [] at h
    split at h
    · rename_i hcond
      have haddr : (f.address + j) % 2 ^ 16 = f.address + j := Nat.mod_eq_of_lt hj
      rw [haddr] at hcond
      have hnext : f.address + (j + 1) < 2 ^ 16 := by omega
      have hrest := ih (j + 1) _ hnext h
      intro i hi
      cases i with
      | zero => simpa using hcond
      | succ i' =>
        have := hrest i' (by simpa using hi)
        omega
    · exact absurd h (by simp)

theorem renderChannels_get_lower (f : FixtureInstance) (vals : FixtureValues)
    (chs : List ChannelDef) (j : Nat) (live live' : LiveState)
    (hj : f.address + j < 2 ^ 16)
    (h : renderChannels f vals chs j live = some live')
    (u a : Nat) (hlow : u ≠ f.univ ∨ a < f.address + j) :
    live'.get? u a = live.get? u a := by
  induction chs generalizing j live with
  | nil =>
    unfold renderChannels at h
    injection h with h
    rw [h]
  | cons ch rest ih =>
    unfold renderChannels at h
    simp only [] at h
    split at h
    · rename_i hcond
      have haddr : (f.address + j) % 2 ^ 16 = f.address + j := Nat.mod_eq_of_lt hj
      rw [haddr] at hcond h
      have hnext : f.address + (j + 1) < 2 ^ 16 := by omega
      have hlow' : u ≠ f.univ ∨ a < f.address + (j + 1) := by
        rcases hlow with h' | h'
        · exact Or.inl h'
        · exact Or.inr (by omega)
      have hstep := ih (j + 1) _ hnext h hlow'
      rw [hstep]
      cases hvo : (match ch.kind with
          | ChannelKind.Intensity => vals.intensity
          | ChannelKind.ColorR => vals.r
          | ChannelKind.ColorG => vals.g
          | ChannelKind.ColorB => vals.b
          | _ => none) with
      | none => rfl
      | some v =>
        rcases hlow with h' | h'
        · exact set_get_other _ _ _ _ _ _ (Or.inl h')
        · exact set_get_other _ _ _ _ _ _ (Or.inr (by omega))
    · exact absurd h (by simp)

theorem renderChannels_get_at (f : FixtureInstance) (vals : FixtureValues)
    (chs : List ChannelDef) (j : Nat) (live live' : LiveState)
    (hj : f.address + j < 2 ^ 16)
    (h : renderChannels f vals chs j live = some live') :
    ∀ (i : Nat) (hi : i < chs.length) (v : Nat),
      channelValue vals (chs.get ⟨i, hi⟩).kind = some v →
      live'.get? f.univ (f.address + (j + i)) = some v := by
  induction chs generalizing j live with
  | nil =>
    intro i hi
    simp at hi
  | cons ch rest ih =>
    unfold renderChannels at h
    simp only [] at h
    split at h
    · rename_i hcond
      have haddr : (f.address + j) % 2 ^ 16 = f.address + j := Nat.mod_eq_of_lt hj
      rw [haddr] at hcond h
      have hnext : f.address + (j + 1) < 2 ^ 16 := by omega
      intro i hi v hv
      cases i with
      | zero =>
        have hcv : (match ch.kind with
            | ChannelKind.Intensity => vals.intensity
            | ChannelKind.ColorR => vals.r
            | ChannelKind.ColorG => vals.g
            | ChannelKind.ColorB => vals.b
            | _ => none) = channelValue vals ch.kind := by
          cases ch.kind <;> rfl
        have hv0 : channelValue vals ch.kind = some v := by simpa using hv
        rw [hcv, hv0] at h
        simp only [] at h
        have hpres := renderChannels_get_lower f vals rest (j + 1) _ live' hnext h
          f.univ (f.address + j) (Or.inr (by omega))
        simp only [Nat.add_zero]
        rw [hpres]
        exact set_get_same _ _ _ _
      | succ i' =>
        have harith : f.address + (j + (i' + 1)) = f.address + ((j + 1) + i') := by omega
        rw [harith]
        refine ih (j + 1) _ hnext h i' (by simpa using hi) v ?_
        simpa using hv
    · exact absurd h (by simp)

theorem render_fixture_values_err (sh : Show) (fid : Nat) (vals : FixtureValues)
    (live : LiveState) (f : FixtureInstance) (ft : FixtureType)
    (hf : alookup sh.patch.fixtures fid = some f)
    (hft : alookup sh.patch.fixture_types f.fixture_type = some ft)
    (haddr : f.address < 2 ^ 16)
    (hbad : ∃ i, i < ft.channels.length ∧
      ¬(1 ≤ f.address + i ∧ f.address + i ≤ 512)) :
    render_fixture_values sh fid vals live = none := by
  obtain ⟨i, hi, hib⟩ := hbad
  cases h : render_fixture_values sh fid vals live with
  | none => rfl
  | some live' =>
    exfalso
    unfold render_fixture_values at h
    rw [hf] at h
    simp only [] at h
    rw [hft] at h
    simp only [] at h
    have hall := renderChannels_success_addrs f vals ft.channels 0 live live'
      (by omega) h
    have h2 := hall i hi
    simp only [Nat.zero_add] at h2
    exact hib h2

theorem AddrOk_new : AddrOk LiveState.new := by
  intro p hp
  simp [LiveState.new] at hp

theorem progChannels_success_addrs (p : Programmer) (f : FixtureInstance)
    (chs : List ChannelDef) (j : Nat) (live live' : LiveState)
    (hj : f.address + j < 2 ^ 16)
    (h : progChannels p f chs j live = some live') :
    ∀ i, i < chs.length → 1 ≤ f.address + (j + i) ∧ f.address + (j + i) ≤ 512 := by
  induction chs generalizing j live with
  | nil =>
    intro i hi
    simp at hi
  | cons ch rest ih =>
    unfold progChannels at h
    simp only [] at h
    split at h
    · rename_i hcond
      have haddr : (f.address + j) % 2 ^ 16 = f.address + j := Nat.mod_eq_of_lt hj
      rw [haddr] at hcond
      have hnext : f.address + (j + 1) < 2 ^ 16 := by omega
      have hrest := ih (j + 1) _ hnext h
      intro i hi
      cases i with
      | zero => simpa using hcond
      | succ i' =>
        have := hrest i' (by simpa using hi)
        omega
    · exact absurd h (by simp)

theorem progChannels_get_lower (p : Programmer) (f : FixtureInstance)
    (chs : List ChannelDef) (j : Nat) (live live' : LiveState)
    (hj : f.address + j < 2 ^ 16)
    (h : progChannels p f chs j live = some live')
    (u a : Nat) (hlow : u ≠ f.univ ∨ a < f.address + j) :
    live'.get? u a = live.get? u a := by
  induction chs generalizing j live with
  | nil =>
    unfold progChannels at h
    injection h with h
    rw [h]
  | cons ch rest ih =>
    unfold progChannels at h
    simp only [] at h
    split at h
    · rename_i hcond
      have haddr : (f.address + j) % 2 ^ 16 = f.address + j := Nat.mod_eq_of_lt hj
      rw [haddr] at hcond h
      have hnext : f.address + (j + 1) < 2 ^ 16 := by omega
      have hlow' : u ≠ f.univ ∨ a < f.address + (j + 1) := by
        rcases hlow with h' | h'
        · exact Or.inl h'
        · exact Or.inr (by omega)
      have hstep := ih (j + 1) _ hnext h hlow'
      rw [hstep]
      cases hvo : (match ch.kind with
          | ChannelKind.Intensity => p.intensity
          | ChannelKind.ColorR => p.r
          | ChannelKind.ColorG => p.g
          | ChannelKind.ColorB => p.b
          | _ => none) with
      | none => rfl
      | some v =>
        rcases hlow with h' | h'
        · exact set_get_other _ _ _ _ _ _ (Or.inl h')
        · exact set_get_other _ _ _ _ _ _ (Or.inr (by omega))
    · exact absurd h (by simp)

theorem progChannels_get_at (p : Programmer) (f : FixtureInstance)
    (chs : List ChannelDef) (j : Nat) (live live' : LiveState)
    (hj : f.address + j < 2 ^ 16)
    (h : progChannels p f chs j live = some live') :
    ∀ (i : Nat) (hi : i < chs.length) (v : Nat),
      channelValue ⟨p.intensity, p.r, p.g, p.b⟩ (chs.get ⟨i, hi⟩).kind = some v →
      live'.get? f.univ (f.address + (j + i)) = some v := by
  induction chs generalizing j live with
  | nil =>
    intro i hi
    simp at hi
  | cons ch rest ih =>
    unfold progChannels at h
    simp only [] at h
    split at h
    · rename_i hcond
      have haddr : (f.address + j) % 2 ^ 16 = f.address + j := Nat.mod_eq_of_lt hj
      rw [haddr] at hcond h
      have hnext : f.address + (j + 1) < 2 ^ 16 := by omega
      intro i hi v hv
      cases i with
      | zero =>
        have hcv : (match ch.kind with
            | ChannelKind.Intensity => p.intensity
            | ChannelKind.ColorR => p.r
            | ChannelKind.ColorG => p.g
            | ChannelKind.ColorB => p.b
            | _ => none) =
            channelValue ⟨p.intensity, p.r, p.g, p.b⟩ ch.kind := by
          cases ch.kind <;> rfl
        have hv0 : channelValue ⟨p.intensity, p.r, p.g, p.b⟩ ch.kind = some v := by
          simpa using hv
        rw [hcv, hv0] at h
        simp only [] at h
        have hpres := progChannels_get_lower p f rest (j + 1) _ live' hnext h
          f.univ (f.address + j) (Or.inr (by omega))
        simp only [Nat.add_zero]
        rw [hpres]
        exact set_get_same _ _ _ _
      | succ i' =>
        have harith : f.address + (j + (i' + 1)) = f.address + ((j + 1) + i') := by omega
        rw [harith]
        refine ih (j + 1) _ hnext h i' (by simpa using hi) v ?_
        simpa using hv
    · exact absurd h (by simp)

theorem renderAll_mem_success (sh : Show) (m : FVMap) (live live' : LiveState)
    (h : renderAll sh m live = some live') (fid : Nat) (vals : FixtureValues)
    (hm : (fid, vals) ∈ m) :
    ∃ l1 l2, render_fixture_values sh fid vals l1 = some l2 := by
  induction m generalizing live with
  | nil => simp at hm
  | cons q rest ih =>
    obtain ⟨f0, v0⟩ := q
    unfold renderAll at h
    cases hr : render_fixture_values sh f0 v0 live with
    | none => rw [hr] at h; simp at h
    | some l1 =>
      rw [hr] at h
      rcases List.mem_cons.mp hm with he | hmem
      · injection he with h1 h2
        subst h1
        subst h2
        exact ⟨live, l1, hr⟩
      · exact ih l1 h hmem

theorem progRenderLoop_mem_success (p : Programmer) (sh : Show) (sel : List Nat)
    (live live' : LiveState) (h : progRenderLoop p sh sel live = some live')
    (fid : Nat) (hm : fid ∈ sel) (f : FixtureInstance) (ft : FixtureType)
    (hf : alookup sh.patch.fixtures fid = some f)
    (hft : alookup sh.patch.fixture_types f.fixture_type = some ft) :
    ∃ l1 l2, progChannels p f ft.channels 0 l1 = some l2 := by
  induction sel generalizing live with
  | nil => simp at hm
  | cons x rest ih =>
    unfold progRenderLoop at h
    rcases List.mem_cons.mp hm with rfl | hmem
    · rw [hf] at h
      simp only [] at h
      rw [hft] at h
      simp only [] at h
      cases hc : progChannels p f ft.channels 0 live with
      | none => rw [hc] at h; simp at h
      | some l2 => exact ⟨live, l2, hc⟩
    · cases hx : alookup sh.patch.fixtures x with
      | none => rw [hx] at h; simp at h
      | some fx =>
        rw [hx] at h
        simp only [] at h
        cases hxt : alookup sh.patch.fixture_types fx.fixture_type with
        | none => rw [hxt] at h; simp at h
        | some ftx =>
          rw [hxt] at h
          simp only [] at h
          cases hc : progChannels p fx ftx.channels 0 live with
          | none => rw [hc] at h; simp at h
          | some l1 =>
            rw [hc] at h
            exact ih l1 h hmem

/-- `Playback::render` fails wholesale when any rendered fixture has a
channel mapping outside `[1, 512]`. -/
theorem playback_render_err (sh : Show) (pb : Playback) (st : FVMap)
    (fid : Nat) (vals : FixtureValues) (f : FixtureInstance) (ft : FixtureType)
    (hst : pb.output_state_map sh = some st)
    (hm : (fid, vals) ∈ st)
    (hf : alookup sh.patch.fixtures fid = some f)
    (hft : alookup sh.patch.fixture_types f.fixture_type = some ft)
    (haddr : f.address < 2 ^ 16)
    (hbad : ∃ i, i < ft.channels.length ∧
      ¬(1 ≤ f.address + i ∧ f.address + i ≤ 512)) :
    pb.render sh = none := by
  cases h : pb.render sh with
  | none => rfl
  | some ls =>
    exfalso
    unfold Playback.render at h
    rw [hst] at h
    simp only [] at h
    obtain ⟨l1, l2, hsucc⟩ := renderAll_mem_success sh st _ ls h fid vals hm
    rw [render_fixture_values_err sh fid vals l1 f ft hf hft haddr hbad] at hsucc
    exact Option.noConfusion hsucc

/-- `Programmer::render` fails wholesale when any selected fixture has a
channel mapping outside `[1, 512]`. -/
theorem programmer_render_err (sh : Show) (p : Programmer)
    (fid : Nat) (f : FixtureInstance) (ft : FixtureType)
    (hm : fid ∈ p.selected)
    (hf : alookup sh.patch.fixtures fid = some f)
    (hft : alookup sh.patch.fixture_types f.fixture_type = some ft)
    (haddr : f.address < 2 ^ 16)
    (hbad : ∃ i, i < ft.channels.length ∧
      ¬(1 ≤ f.address + i ∧ f.address + i ≤ 512)) :
    p.render sh = none := by
  cases h : p.render sh with
  | none => rfl
  | some ls =>
    exfalso
    unfold Programmer.render at h
    obtain ⟨l1, l2, hsucc⟩ :=
      progRenderLoop_mem_success p sh p.selected _ ls h fid hm f ft hf hft
    obtain ⟨i, hi, hib⟩ := hbad
    have := progChannels_success_addrs p f ft.channels 0 l1 l2 (by omega) hsucc i hi
    simp only [Nat.zero_add] at this
    exact hib this

/-- `Runtime::render` fails wholesale when any fixture of the merged
playback map has a channel mapping outside `[1, 512]`. -/
theorem runtime_render_err_merged (rt : Runtime) (a b : FVMap)
    (fid : Nat) (vals : FixtureValues) (f : FixtureInstance) (ft : FixtureType)
    (ha : rt.playback_a.output_state_map rt.sh = some a)
    (hb : rt.playback_b.output_state_map rt.sh = some b)
    (hm : (fid, vals) ∈ merge_maps a b)
    (hf : alookup rt.sh.patch.fixtures fid = some f)
    (hft : alookup rt.sh.patch.fixture_types f.fixture_type = some ft)
    (haddr : f.address < 2 ^ 16)
    (hbad : ∃ i, i < ft.channels.length ∧
      ¬(1 ≤ f.address + i ∧ f.address + i ≤ 512)) :
    rt.render = none := by
  unfold Runtime.render
  rw [ha]
  simp only []
  rw [hb]
  simp only []
  cases hra : renderAll rt.sh (merge_maps a b) LiveState.new with
  | none => rfl
  | some live =>
    exfalso
    obtain ⟨l1, l2, hsucc⟩ :=
      renderAll_mem_success rt.sh (merge_maps a b) _ live hra fid vals hm
    rw [render_fixture_values_err rt.sh fid vals l1 f ft hf hft haddr hbad] at hsucc
    exact Option.noConfusion hsucc

/-- `Runtime::render` also fails wholesale when any fixture selected in
the programmer has a channel mapping outside `[1, 512]`. -/
theorem runtime_render_err_selected (rt : Runtime)
    (fid : Nat) (f : FixtureInstance) (ft : FixtureType)
    (hm : fid ∈ rt.programmer.selected)
    (hf : alookup rt.sh.patch.fixtures fid = some f)
    (hft : alookup rt.sh.patch.fixture_types f.fixture_type = some ft)
    (haddr : f.address < 2 ^ 16)
    (hbad : ∃ i, i < ft.channels.length ∧
      ¬(1 ≤ f.address + i ∧ f.address + i ≤ 512)) :
    rt.render = none := by
  have hprog : rt.programmer.render rt.sh = none :=
    programmer_render_err rt.sh rt.programmer fid f ft hm hf hft haddr hbad
  unfold Runtime.render
  cases ha : rt.playback_a.output_state_map rt.sh with
  | none => rfl
  | some a =>
    simp only []
    cases hb : rt.playback_b.output_state_map rt.sh with
    | none => rfl
    | some b =>
      simp only []
      cases hra : renderAll rt.sh (merge_maps a b) LiveState.new with
      | none => rfl
      | some live =>
        simp only []
        rw [hprog]

/-- C7: every render path projects channel `i` of a fixture to DMX address
`instance.address + i` — stated both for `render_fixture_values` (the
loop used by `Playback::render` and `Runtime::render`) and for
`progChannels` (the identical loop inlined in `Programmer::render`); an
address outside `[1, 512]` makes the whole render call return an error
(`Playback::render`, `Programmer::render` and `Runtime::render` each
return `none`, producing no `LiveState`); consequently any successfully
returned `LiveState` from any of the three render calls contains only
addresses in `[1, 512]`. -/
theorem render_address_safety :
    (∀ (sh : Show) (pb : Playback) (ls : LiveState),
      pb.render sh = some ls → AddrOk ls) ∧
    (∀ (sh : Show) (p : Programmer) (ls : LiveState),
      p.render sh = some ls → AddrOk ls) ∧
    (∀ (rt : Runtime) (ls : LiveState), rt.render = some ls → AddrOk ls) ∧
    (∀ (sh : Show) (fid : Nat) (vals : FixtureValues) (live : LiveState)
      (f : FixtureInstance) (ft : FixtureType),
      alookup sh.patch.fixtures fid = some f →
      alookup sh.patch.fixture_types f.fixture_type = some ft →
      f.address < 2 ^ 16 →
      (∃ i, i < ft.channels.length ∧
        ¬(1 ≤ f.address + i ∧ f.address + i ≤ 512)) →
      render_fixture_values sh fid vals live = none) ∧
    (∀ (sh : Show) (fid : Nat) (vals : FixtureValues) (live live' : LiveState)
      (f : FixtureInstance) (ft : FixtureType),
      alookup sh.patch.fixtures fid = some f →
      alookup sh.patch.fixture_types f.fixture_type = some ft →
      f.address < 2 ^ 16 →
      render_fixture_values sh fid vals live = some live' →
      ∀ (i : Nat) (hi : i < ft.channels.length) (v : Nat),
        channelValue vals (ft.channels.get ⟨i, hi⟩).kind = some v →
        live'.get? f.univ (f.address + i) = some v) ∧
    (∀ (p : Programmer) (f : FixtureInstance) (chs : List ChannelDef)
      (live live' : LiveState),
      f.address < 2 ^ 16 →
      progChannels p f chs 0 live = some live' →
      ∀ (i : Nat) (hi : i < chs.length) (v : Nat),
        channelValue ⟨p.intensity, p.r, p.g, p.b⟩ (chs.get ⟨i, hi⟩).kind = some v →
        live'.get? f.univ (f.address + i) = some v) ∧
    (∀ (sh : Show) (pb : Playback) (st : FVMap) (fid : Nat)
      (vals : FixtureValues) (f : FixtureInstance) (ft : FixtureType),
      pb.output_state_map sh = some st →
      (fid, vals) ∈ st →
      alookup sh.patch.fixtures fid = some f →
      alookup sh.patch.fixture_types f.fixture_type = some ft →
      f.address < 2 ^ 16 →
      (∃ i, i < ft.channels.length ∧
        ¬(1 ≤ f.address + i ∧ f.address + i ≤ 512)) →
      pb.render sh = none) ∧
    (∀ (sh : Show) (p : Programmer) (fid : Nat)
      (f : FixtureInstance) (ft : FixtureType),
      fid ∈ p.selected →
      alookup sh.patch.fixtures fid = some f →
      alookup sh.patch.fixture_types f.fixture_type = some ft →
      f.address < 2 ^ 16 →
      (∃ i, i < ft.channels.length ∧
        ¬(1 ≤ f.address + i ∧ f.address + i ≤ 512)) →
      p.render sh = none) ∧
    (∀ (rt : Runtime) (a b : FVMap) (fid : Nat) (vals : FixtureValues)
      (f : FixtureInstance) (ft : FixtureType),
      rt.playback_a.output_state_map rt.sh = some a →
      rt.playback_b.output_state_map rt.sh = some b →
      (fid, vals) ∈ merge_maps a b →
      alookup rt.sh.patch.fixtures fid = some f →
      alookup rt.sh.patch.fixture_types f.fixture_type = some ft →
      f.address < 2 ^ 16 →
      (∃ i, i < ft.channels.length ∧
        ¬(1 ≤ f.address + i ∧ f.address + i ≤ 512)) →
      rt.render = none) ∧
    (∀ (rt : Runtime) (fid : Nat) (f : FixtureInstance) (ft : FixtureType),
      fid ∈ rt.programmer.selected →
      alookup rt.sh.patch.fixtures fid = some f →
      alookup rt.sh.patch.fixture_types f.fixture_type = some ft →
      f.address < 2 ^ 16 →
      (∃ i, i < ft.channels.length ∧
        ¬(1 ≤ f.address + i ∧ f.address + i ≤ 512)) →
      rt.render = none) := by
  refine ⟨?_, ?_, ?_, ?_, ?_, ?_, ?_, ?_, ?_, ?_⟩
  · intro sh pb ls h
    unfold Playback.render at h
    cases ho : pb.output_state_map sh with
    | none => rw [ho] at h; simp at h
    | some st =>
      rw [ho] at h
      exact renderAll_addrOk sh st _ ls AddrOk_new h
  · intro sh p ls h
    unfold Programmer.render at h
    exact progRenderLoop_addrOk p sh p.selected _ ls AddrOk_new h
  · intro rt ls h
    unfold Runtime.render at h
    cases ha : rt.playback_a.output_state_map rt.sh with
    | none => rw [ha] at h; simp at h
    | some a =>
      rw [ha] at h
      simp only [] at h
      cases hb : rt.playback_b.output_state_map rt.sh with
      | none => rw [hb] at h; simp at h
      | some b =>
        rw [hb] at h
        simp only [] at h
        cases hm : renderAll rt.sh (merge_maps a b) LiveState.new with
        | none => rw [hm] at h; simp at h
        | some live =>
          rw [hm] at h
          simp only [] at h
          cases hp : rt.programmer.render rt.sh with
          | none => rw [hp] at h; simp at h
          | some prog =>
            rw [hp] at h
            simp only [Option.some.injEq] at h
            subst h
            exact overlay_addrOk live prog
              (renderAll_addrOk _ _ _ _ AddrOk_new hm)
              (progRenderLoop_addrOk _ _ _ _ _ AddrOk_new hp)
  · intro sh fid vals live f ft hf hft haddr hbad
    exact render_fixture_values_err sh fid vals live f ft hf hft haddr hbad
  · intro sh fid vals live live' f ft hf hft haddr h i hi v hv
    unfold render_fixture_values at h
    rw [hf] at h
    simp only [] at h
    rw [hft] at h
    simp only [] at h
    have := renderChannels_get_at f vals ft.channels 0 live live' (by omega) h i hi v hv
    simpa using this
  · intro p f chs live live' haddr h i hi v hv
    have := progChannels_get_at p f chs 0 live live' (by omega) h i hi v hv
    simpa using this
  · intro sh pb st fid vals f ft hst hm hf hft haddr hbad
    exact playback_render_err sh pb st fid vals f ft hst hm hf hft haddr hbad
  · intro sh p fid f ft hm hf hft haddr hbad
    exact programmer_render_err sh p fid f ft hm hf hft haddr hbad
  · intro rt a b fid vals f ft ha hb hm hf hft haddr hbad
    exact runtime_render_err_merged rt a b fid vals f ft ha hb hm hf hft haddr hbad
  · intro rt fid f ft hm hf hft haddr hbad
    exact runtime_render_err_selected rt fid f ft hm hf hft haddr hbad

def ftW7 : FixtureType :=
  ⟨"rgb_par_3ch", "Generic", "RGB PAR (3ch)",
   [⟨"Red", .ColorR⟩, ⟨"Green", .ColorG⟩, ⟨"Blue", .ColorB⟩]⟩

def fxW7 : FixtureInstance := ⟨1, "PAR 1", "rgb_par_3ch", 1, 1⟩

def shW7 : Show :=
  { name := "W7"
    patch := ⟨[("rgb_par_3ch", ftW7)], [(1, fxW7)]⟩
    cue_lists :=
      [("main", ⟨[(1, ⟨1, "red", false, 0, 0, [(1, ⟨none, some 255, none, none⟩)]⟩)]⟩)] }

def pbW7 : Playback :=
  { cuelist := "main", current := some 1, mode := .Tracking, transition := none }

def lsW7 : LiveState := ⟨[(1, [(1, 255), (2, 0), (3, 0)])]⟩

def progW7 : Programmer :=
  { selected := [1], intensity := none, r := some 10, g := none, b := none }

def rtW7 : Runtime :=
  { sh := shW7, playback_a := pbW7, playback_b := Playback.new "main",
    programmer := progW7 }

/-- The output of `progChannels` for `progW7` on the 3-channel par:
red 10 at address 1, green and blue unset so nothing written. -/
def lspcW7 : LiveState := ⟨[(1, [(1, 10)])]⟩

def fxBad : FixtureInstance := ⟨1, "BAD", "rgb_par_3ch", 1, 511⟩

def shBad : Show :=
  { name := "Bad"
    patch := ⟨[("rgb_par_3ch", ftW7)], [(1, fxBad)]⟩
    cue_lists := [("main", ⟨[]⟩)] }

/-- Like `shBad` but with a cue touching the badly patched fixture, so the
playback and runtime render paths reach it. -/
def shBad2 : Show :=
  { name := "Bad2"
    patch := ⟨[("rgb_par_3ch", ftW7)], [(1, fxBad)]⟩
    cue_lists :=
      [("main", ⟨[(1, ⟨1, "red", false, 0, 0, [(1, ⟨none, some 255, none, none⟩)]⟩)]⟩)] }

def pbBad : Playback :=
  { cuelist := "main", current := some 1, mode := .Tracking, transition := none }

/-- The output state map of `pbBad` on `shBad2` (resolved cue 1). -/
def stBad : FVMap := [(1, ⟨some 0, some 255, some 0, some 0⟩)]

def progBad : Programmer :=
  { selected := [1], intensity := some 10, r := none, g := none, b := none }

def rtBadMerged : Runtime :=
  { sh := shBad2, playback_a := pbBad, playback_b := Playback.new "main",
    programmer := Programmer.new }

def rtBadSel : Runtime :=
  { sh := shBad, playback_a := Playback.new "main",
    playback_b := Playback.new "main", programmer := progBad }

/-- Witness for C7: playback, programmer and runtime renders stay within
`[1, 512]`; the per-fixture loop and the programmer's inline loop write
channel `i` exactly at `address + i`; and a fixture patched at address 511
with a 3-channel type (channel 2 maps to 513) makes `render_fixture_values`
error and makes each of the three whole render calls return `none`. -/
theorem render_address_safety_witness :
    AddrOk lsW7 ∧
    (∃ lsp, progW7.render shW7 = some lsp ∧ AddrOk lsp) ∧
    (∃ lsr, rtW7.render = some lsr ∧ AddrOk lsr) ∧
    render_fixture_values shBad 1 FixtureValues.empty LiveState.new = none ∧
    lsW7.get? 1 (1 + 0) = some 255 ∧
    lspcW7.get? 1 (1 + 0) = some 10 ∧
    pbBad.render shBad2 = none ∧
    progBad.render shBad = none ∧
    rtBadMerged.render = none ∧
    rtBadSel.render = none := by
  obtain ⟨hA, hB, hC, hD, hE, hF, hG, hH, hI, hJ⟩ := render_address_safety
  have hrender : pbW7.render shW7 = some lsW7 := by decide
  have hrfv : render_fixture_values shW7 1 ⟨some 0, some 255, some 0, some 0⟩
      LiveState.new = some lsW7 := by decide
  have hpc : progChannels progW7 fxW7 ftW7.channels 0 LiveState.new = some lspcW7 := by
    decide
  refine ⟨?_, ?_, ?_, ?_, ?_, ?_, ?_, ?_, ?_, ?_⟩
  · exact hA shW7 pbW7 lsW7 hrender
  · obtain ⟨lsp, hlsp⟩ : ∃ x, progW7.render shW7 = some x :=
      ⟨⟨[(1, [(1, 10)])]⟩, by decide⟩
    exact ⟨lsp, hlsp, hB shW7 progW7 lsp hlsp⟩
  · obtain ⟨lsr, hlsr⟩ : ∃ x, rtW7.render = some x :=
      ⟨⟨[(1, [(1, 10), (2, 0), (3, 0)])]⟩, by decide⟩
    exact ⟨lsr, hlsr, hC rtW7 lsr hlsr⟩
  · exact hD shBad 1 FixtureValues.empty LiveState.new fxBad ftW7
      (by decide) (by decide) (by decide) ⟨2, by decide, by decide⟩
  · exact hE shW7 1 ⟨some 0, some 255, some 0, some 0⟩ LiveState.new lsW7 fxW7 ftW7
      (by decide) (by decide) (by decide) hrfv 0 (by decide) 255 (by decide)
  · exact hF progW7 fxW7 ftW7.channels LiveState.new lspcW7
      (by decide) hpc 0 (by decide) 10 (by decide)
  · exact hG shBad2 pbBad stBad 1 ⟨some 0, some 255, some 0, some 0⟩ fxBad ftW7
      (by decide) (by decide) (by decide) (by decide) (by decide)
      ⟨2, by decide, by decide⟩
  · exact hH shBad progBad 1 fxBad ftW7
      (by decide) (by decide) (by decide) (by decide) ⟨2, by decide, by decide⟩
  · exact hI rtBadMerged stBad [] 1 ⟨some 0, some 255, some 0, some 0⟩ fxBad ftW7
      (by decide) (by decide) (by decide) (by decide) (by decide) (by decide)
      ⟨2, by decide, by decide⟩
  · exact hJ rtBadSel 1 fxBad ftW7
      (by decide) (by decide) (by decide) (by decide) ⟨2, by decide, by decide⟩
